import Mathlib

/-!
# Topic activation scheduler (x/emissions/keeper/topic_activation.go)

A shallow embedding of the keeper functions that decide which topics are
active at a block, together with the properties the specification states
about them.

Conventions of the embedding

* Each keyed store (`collections.Map`, `collections.KeySet`) is a total
  function from keys to `Option` values (`Bool` for the key set): `Get`
  of an absent key is `none`, `Set` overwrites, `Remove` of an absent key
  changes nothing.  Store I/O failures are not modelled, so the only
  errors left are a failed `GetTopic` and a failed weight lookup.
* `TopicId` is `uint64` (a `Nat`), `BlockHeight` is `int64` (an `Int`).
  The one sum the code makes on heights, `currentBlock + topic.EpochLength`,
  is wrapped to 64 bits as the Go sum is, and the two explicit `int32(...)`
  conversions of the capacity test are kept.
* The topic registry, the parameters, the weight provider and the current
  block height are external to this file of the keeper; they travel in a
  `Context` value that every call receives.
* Every keeper function returns `Except KeeperError _`; a mutating
  function returns its result paired with the stores after the call.
-/

namespace Emissions

abbrev TopicId := Nat

abbrev BlockHeight := Int

/-- Modelled from the spec: the declaration of `alloraMath.Dec` is not part
of the sources; the specification gives every topic an integer weight, so a
weight is an `Int`, `Lt` is `<` and `NewDecFromInt64(0)` is `0`. -/
abbrev Dec := Int

def RESERVED_BLOCK : BlockHeight := 0

/-- Modelled from the spec: `types.TopicIdWeightPair`, the cached pair of a
topic ID and its weight; its declaration is not part of the sources.  The
Go zero value `types.TopicIdWeightPair{}` is `⟨0, 0⟩`. -/
structure TopicIdWeightPair where
  Weight : Dec
  TopicId : Nat
deriving DecidableEq, Repr

/-- Modelled from the spec: a topic, of which only `EpochLength` (the
number of blocks between churns) is read here. -/
structure Topic where
  EpochLength : BlockHeight
deriving DecidableEq, Repr

/-- Modelled from the spec: the module parameters, of which only
`MaxActiveTopicsPerBlock` is read here. -/
structure Params where
  MaxActiveTopicsPerBlock : Nat
deriving DecidableEq, Repr

inductive KeeperError where
  | topicNotFound
  | weightUnavailable
deriving DecidableEq, Repr

/-- The collaborators a call reads but never writes: the block height of
the SDK context, the parameters, the topic registry (`k.topics`) and the
weight provider (`k.GetTopicWeightFromTopicId`, `none` when it fails). -/
structure Context where
  blockHeight : BlockHeight
  params : Params
  topics : TopicId → Option Topic
  topicWeight : TopicId → Option Dec

/-- The four stores written by the activation code. -/
@[ext]
structure Keeper where
  blockToActiveTopics : BlockHeight → Option (List TopicId)
  blockToLowestActiveTopicWeight : BlockHeight → Option TopicIdWeightPair
  topicToNextPossibleChurningBlock : TopicId → Option BlockHeight
  activeTopics : TopicId → Bool

/-- All four stores empty. -/
def Keeper.empty : Keeper :=
  { blockToActiveTopics := fun _ => none
    blockToLowestActiveTopicWeight := fun _ => none
    topicToNextPossibleChurningBlock := fun _ => none
    activeTopics := fun _ => false }

/-- `Map.Set`: overwrite the value at one key. -/
def mapSet {κ ν : Type} [DecidableEq κ] (m : κ → Option ν) (key : κ) (v : ν) : κ → Option ν :=
  fun x => if x = key then some v else m x

/-- `Map.Remove`: forget one key; nothing happens when it is absent. -/
def mapRemove {κ ν : Type} [DecidableEq κ] (m : κ → Option ν) (key : κ) : κ → Option ν :=
  fun x => if x = key then none else m x

/-- `KeySet.Set`. -/
def keySetAdd {κ : Type} [DecidableEq κ] (m : κ → Bool) (key : κ) : κ → Bool :=
  fun x => if x = key then true else m x

/-- `KeySet.Remove`. -/
def keySetRemove {κ : Type} [DecidableEq κ] (m : κ → Bool) (key : κ) : κ → Bool :=
  fun x => if x = key then false else m x

/-- Go conversion `int32(x)` of an integer: keep the low 32 bits, read as
two's complement. -/
def int32 (x : Int) : Int := (x + 2 ^ 31) % 2 ^ 32 - 2 ^ 31

/-- Go arithmetic on `int64`: the exact result `x` wrapped to 64 bits, two's
complement. -/
def int64 (x : Int) : Int := (x + 2 ^ 63) % 2 ^ 64 - 2 ^ 63

/-- `k.GetTopic`: fails on an unregistered topic. -/
def GetTopic (ctx : Context) (topicId : TopicId) : Except KeeperError Topic :=
  match ctx.topics topicId with
  | some topic => .ok topic
  | none => .error .topicNotFound

/-- `k.GetTopicWeightFromTopicId`. -/
def GetTopicWeightFromTopicId (ctx : Context) (topicId : TopicId) : Except KeeperError Dec :=
  match ctx.topicWeight topicId with
  | some w => .ok w
  | none => .error .weightUnavailable

def GetParams (ctx : Context) : Except KeeperError Params := .ok ctx.params

def GetNextPossibleChurningBlockByTopicId (ctx : Context) (k : Keeper) (topicId : TopicId) :
    Except KeeperError (BlockHeight × Bool) :=
  let currentBlock := ctx.blockHeight
  match k.topicToNextPossibleChurningBlock topicId with
  | none => .ok (RESERVED_BLOCK, false)
  | some block => .ok (block, decide (block ≥ currentBlock))

def GetActiveTopicIdsAtBlock (k : Keeper) (block : BlockHeight) : Except KeeperError (List TopicId) :=
  match k.blockToActiveTopics block with
  | none => .ok []
  | some idsOfActiveTopics => .ok idsOfActiveTopics

/-- The Boolean is `true` when the block has no entry. -/
def GetLowestActiveTopicWeightAtBlock (k : Keeper) (block : BlockHeight) :
    Except KeeperError (TopicIdWeightPair × Bool) :=
  match k.blockToLowestActiveTopicWeight block with
  | none => .ok (⟨0, 0⟩, true)
  | some weight => .ok (weight, false)

def PruneTopicActivationDataAtBlock (k : Keeper) (block : BlockHeight) : Except KeeperError (Unit × Keeper) :=
  let k1 := { k with blockToActiveTopics := mapRemove k.blockToActiveTopics block }
  let k2 := { k1 with blockToLowestActiveTopicWeight := mapRemove k1.blockToLowestActiveTopicWeight block }
  .ok ((), k2)

/-- Loop state of `ResetLowestActiveTopicWeightAtBlock`. -/
structure LowestScan where
  firstIter : Bool
  lowestWeight : Dec
  idOfLowestWeightTopic : TopicId
deriving DecidableEq, Repr

/-- One iteration of the loop of `ResetLowestActiveTopicWeightAtBlock`. -/
def lowestScanStep (ctx : Context) (st : LowestScan) (topicId : TopicId) : LowestScan :=
  match GetTopicWeightFromTopicId ctx topicId with
  | .error _ => st
  | .ok weight =>
    if weight < st.lowestWeight || st.firstIter then
      { firstIter := false, lowestWeight := weight, idOfLowestWeightTopic := topicId }
    else st

def ResetLowestActiveTopicWeightAtBlock (ctx : Context) (k : Keeper) (block : BlockHeight) :
    Except KeeperError (Unit × Keeper) :=
  match GetActiveTopicIdsAtBlock k block with
  | .error err => .error err
  | .ok activeTopicIds =>
    if activeTopicIds.length = 0 then
      PruneTopicActivationDataAtBlock k block
    else
      let st := activeTopicIds.foldl (lowestScanStep ctx)
        { firstIter := true, lowestWeight := 0, idOfLowestWeightTopic := 0 }
      let data : TopicIdWeightPair := { Weight := st.lowestWeight, TopicId := st.idOfLowestWeightTopic }
      .ok ((), { k with blockToLowestActiveTopicWeight := mapSet k.blockToLowestActiveTopicWeight block data })

/-- The loop `for i, id := range ids { if id == topicId { out = append(ids[:i], ids[i+1:]...); break } }`
run on the part `rest` of `ids` still to visit, `seen` being the part
already visited: the value of `out` afterwards, `out` holding `init` before
the loop. -/
def spliceFirstMatch (topicId : TopicId) (init : List TopicId) :
    List TopicId → List TopicId → List TopicId
  | _, [] => init
  | seen, id :: rest =>
    if id = topicId then seen ++ rest else spliceFirstMatch topicId init (seen ++ [id]) rest

def inactivateTopicWithoutMinWeightReset (ctx : Context) (k : Keeper) (topicId : TopicId) :
    Except KeeperError (BlockHeight × Keeper) :=
  let topicExists := (ctx.topics topicId).isSome
  if !topicExists then .ok (RESERVED_BLOCK, k)
  else
    match GetNextPossibleChurningBlockByTopicId ctx k topicId with
    | .error err => .error err
    | .ok (block, topicIsActive) =>
      if !topicIsActive then .ok (block, k)
      else
        match GetActiveTopicIdsAtBlock k block with
        | .error err => .error err
        | .ok topicIdsActiveAtBlock =>
          let newActiveTopicIds := spliceFirstMatch topicId [] [] topicIdsActiveAtBlock
          let k1 := { k with blockToActiveTopics := mapSet k.blockToActiveTopics block newActiveTopicIds }
          let k2 := { k1 with
            topicToNextPossibleChurningBlock := mapRemove k1.topicToNextPossibleChurningBlock topicId }
          let k3 := { k2 with activeTopics := keySetRemove k2.activeTopics topicId }
          .ok (block, k3)

def addTopicToActiveSetRespectingLimitsWithoutMinWeightReset (ctx : Context) (k : Keeper)
    (topicId : TopicId) (block : BlockHeight) : Except KeeperError (Bool × Keeper) :=
  match GetParams ctx with
  | .error err => .error err
  | .ok params =>
    match GetActiveTopicIdsAtBlock k block with
    | .error err => .error err
    | .ok topicIdsActiveAtBlock =>
      let existingActiveTopics := topicIdsActiveAtBlock
      if existingActiveTopics.any (fun id => id == topicId) then .ok (false, k)
      else if int32 existingActiveTopics.length ≥ int32 params.MaxActiveTopicsPerBlock then
        match GetLowestActiveTopicWeightAtBlock k block with
        | .error err => .error err
        | .ok (lowestWeight, _) =>
          match GetTopicWeightFromTopicId ctx topicId with
          | .error err => .error err
          | .ok weight =>
            if weight < lowestWeight.Weight then .ok (false, k)
            else
              match inactivateTopicWithoutMinWeightReset ctx k lowestWeight.TopicId with
              | .error err => .error err
              | .ok (_, k1) =>
                let shortened :=
                  spliceFirstMatch lowestWeight.TopicId existingActiveTopics [] existingActiveTopics
                let newActiveTopicIds := shortened ++ [topicId]
                .ok (true, { k1 with
                  blockToActiveTopics := mapSet k1.blockToActiveTopics block newActiveTopicIds })
      else
        let newActiveTopicIds := existingActiveTopics ++ [topicId]
        .ok (true, { k with blockToActiveTopics := mapSet k.blockToActiveTopics block newActiveTopicIds })

def ActivateTopic (ctx : Context) (k : Keeper) (topicId : TopicId) : Except KeeperError (Unit × Keeper) :=
  let topicExists := (ctx.topics topicId).isSome
  if !topicExists then .ok ((), k)
  else
    match GetNextPossibleChurningBlockByTopicId ctx k topicId with
    | .error err => .error err
    | .ok (_, topicIsActive) =>
      if topicIsActive then .ok ((), k)
      else
        match GetTopic ctx topicId with
        | .error err => .error err
        | .ok topic =>
          let currentBlock := ctx.blockHeight
          let epochEndBlock := int64 (currentBlock + topic.EpochLength)
          match addTopicToActiveSetRespectingLimitsWithoutMinWeightReset ctx k topicId epochEndBlock with
          | .error err => .error err
          | .ok (isAdded, k1) =>
            if !isAdded then .ok ((), k1)
            else
              let k2 := { k1 with
                topicToNextPossibleChurningBlock :=
                  mapSet k1.topicToNextPossibleChurningBlock topicId epochEndBlock }
              match ResetLowestActiveTopicWeightAtBlock ctx k2 epochEndBlock with
              | .error err => .error err
              | .ok (_, k3) =>
                .ok ((), { k3 with activeTopics := keySetAdd k3.activeTopics topicId })

def InactivateTopic (ctx : Context) (k : Keeper) (topicId : TopicId) : Except KeeperError (Unit × Keeper) :=
  match inactivateTopicWithoutMinWeightReset ctx k topicId with
  | .error err => .error err
  | .ok (_, k1) => .ok ((), k1)

def UpdateActiveTopic (ctx : Context) (k : Keeper) (topicId : TopicId) : Except KeeperError (Unit × Keeper) :=
  match GetTopic ctx topicId with
  | .error err => .error err
  | .ok topic =>
    let currentBlock := ctx.blockHeight
    let epochEndBlock := int64 (currentBlock + topic.EpochLength)
    match addTopicToActiveSetRespectingLimitsWithoutMinWeightReset ctx k topicId epochEndBlock with
    | .error err => .error err
    | .ok (isAdded, k1) =>
      if !isAdded then .ok ((), k1)
      else
        let k2 := { k1 with
          topicToNextPossibleChurningBlock :=
            mapSet k1.topicToNextPossibleChurningBlock topicId epochEndBlock }
        match ResetLowestActiveTopicWeightAtBlock ctx k2 epochEndBlock with
        | .error err => .error err
        | .ok (_, k3) => .ok ((), k3)

/-- A keeper call, for describing sequences of calls. -/
inductive Call where
  | activate (topicId : TopicId)
  | inactivate (topicId : TopicId)
  | update (topicId : TopicId)
  | prune (block : BlockHeight)
  | reset (block : BlockHeight)
deriving DecidableEq, Repr

def Call.run (ctx : Context) (k : Keeper) : Call → Except KeeperError (Unit × Keeper)
  | .activate topicId => ActivateTopic ctx k topicId
  | .inactivate topicId => InactivateTopic ctx k topicId
  | .update topicId => UpdateActiveTopic ctx k topicId
  | .prune block => PruneTopicActivationDataAtBlock k block
  | .reset block => ResetLowestActiveTopicWeightAtBlock ctx k block

/-- The stores after one call made in context `c.1`.  A call that returns
an error has written nothing (every error of this model is raised before
the first write), so the stores stay as they were. -/
def applyCall (k : Keeper) (c : Context × Call) : Keeper :=
  match c.2.run c.1 k with
  | .ok (_, k1) => k1
  | .error _ => k

/-- The stores after a sequence of calls, each in its own context. -/
def runCalls (k : Keeper) (calls : List (Context × Call)) : Keeper :=
  calls.foldl applyCall k

/-- Block heights of the successive calls never decrease. -/
def heightsNonDecreasing : List (Context × Call) → Prop
  | [] => True
  | [_] => True
  | c :: d :: rest => c.1.blockHeight ≤ d.1.blockHeight ∧ heightsNonDecreasing (d :: rest)

/-- The pair `p` is the first minimum of the list `l` for the weights of
`ctx`: its topic stands in `l` with weight `p.Weight`, every member before
it whose weight is known is strictly heavier, and every member after it
whose weight is known is at least as heavy. -/
def IsFirstLowest (ctx : Context) (l : List TopicId) (p : TopicIdWeightPair) : Prop :=
  ∃ pre post, l = pre ++ p.TopicId :: post ∧ ctx.topicWeight p.TopicId = some p.Weight ∧
    (∀ u ∈ pre, ∀ w, ctx.topicWeight u = some w → p.Weight < w) ∧
    (∀ u ∈ post, ∀ w, ctx.topicWeight u = some w → p.Weight ≤ w)

/-- The stores after an effective teardown of `topicId`, scheduled at `block`. -/
def tornDown (k : Keeper) (topicId : TopicId) (block : BlockHeight) : Keeper :=
  { blockToActiveTopics := mapSet k.blockToActiveTopics block
      (if topicId ∈ (k.blockToActiveTopics block).getD [] then
        ((k.blockToActiveTopics block).getD []).erase topicId else [])
    blockToLowestActiveTopicWeight := k.blockToLowestActiveTopicWeight
    topicToNextPossibleChurningBlock := mapRemove k.topicToNextPossibleChurningBlock topicId
    activeTopics := keySetRemove k.activeTopics topicId }

/-- Every topic is in the active registry exactly when it has a churn-schedule entry, and it then
stands in the active list of the block it is scheduled at. -/
def Consistent (k : Keeper) : Prop :=
  ∀ t, (k.activeTopics t = true ↔ (k.topicToNextPossibleChurningBlock t).isSome = true) ∧
    ((k.topicToNextPossibleChurningBlock t).isSome = true ↔
      ∃ b, k.topicToNextPossibleChurningBlock t = some b ∧ t ∈ (k.blockToActiveTopics b).getD [])

/-- Every topic ID with a churn-schedule entry is a registered topic. -/
def ScheduledRegistered (ctx : Context) (k : Keeper) : Prop :=
  ∀ t, (k.topicToNextPossibleChurningBlock t).isSome = true → (ctx.topics t).isSome = true

/-- The pair stored by a recompute over a non-empty list. -/
def scannedPair (ctx : Context) (l : List TopicId) : TopicIdWeightPair :=
  ⟨(l.foldl (lowestScanStep ctx) ⟨true, 0, 0⟩).lowestWeight,
   (l.foldl (lowestScanStep ctx) ⟨true, 0, 0⟩).idOfLowestWeightTopic⟩

/-- Every topic of the active registry has a churn-schedule entry. -/
def RegistryScheduled (k : Keeper) : Prop :=
  ∀ t, k.activeTopics t = true → (k.topicToNextPossibleChurningBlock t).isSome = true

/-- Every topic with a churn-schedule entry is in the active registry. -/
def ScheduledInRegistry (k : Keeper) : Prop :=
  ∀ t, (k.topicToNextPossibleChurningBlock t).isSome = true → k.activeTopics t = true

/-- Whether the call is an `UpdateActiveTopic`. -/
def Call.isUpdate : Call → Bool
  | .update _ => true
  | _ => false

/-- Block `s` respects the capacity `M`, and when it is full its cached lowest pair names a
member of its list. -/
def CapacityAt (M : Nat) (k : Keeper) (s : BlockHeight) : Prop :=
  ((k.blockToActiveTopics s).getD []).length ≤ M ∧
    (((k.blockToActiveTopics s).getD []).length = M →
      ∃ p, k.blockToLowestActiveTopicWeight s = some p ∧
        p.TopicId ∈ (k.blockToActiveTopics s).getD [])

/-- The weight lookup succeeds for every topic. -/
def WeightsKnown (ctx : Context) : Prop := ∀ t, (ctx.topicWeight t).isSome = true

/-- No active list holds a topic ID twice. -/
def NoDuplicates (k : Keeper) : Prop :=
  ∀ s, ((k.blockToActiveTopics s).getD []).Nodup

/-- The topics of the scenarios of the specification: `A = 1`, `B = 2`, `C = 3`, `D = 4`, of
weights 5, 3, 4 and 1, epoch length 10, with room for two active topics per block, seen at
block `height`. -/
def scenarioCtx (height : BlockHeight) : Context :=
  { blockHeight := height
    params := ⟨2⟩
    topics := fun t => if t = 1 ∨ t = 2 ∨ t = 3 ∨ t = 4 then some ⟨10⟩ else none
    topicWeight := fun t =>
      if t = 1 then some 5 else if t = 2 then some 3 else if t = 3 then some 4
      else if t = 4 then some 1 else none }

/-- Block 100 full with `[A, B]`, cached lowest `(B, 3)`. -/
def fullStep : Keeper :=
  { blockToActiveTopics := fun b => if b = 100 then some [1, 2] else none
    blockToLowestActiveTopicWeight := fun b => if b = 100 then some ⟨3, 2⟩ else none
    topicToNextPossibleChurningBlock := fun t => if t = 1 ∨ t = 2 then some 100 else none
    activeTopics := fun t => decide (t = 1 ∨ t = 2) }

/-- Block 110 holding `[A, C]`, cached lowest `(C, 4)`. -/
def stepAC : Keeper :=
  { blockToActiveTopics := fun b => if b = 110 then some [1, 3] else none
    blockToLowestActiveTopicWeight := fun b => if b = 110 then some ⟨4, 3⟩ else none
    topicToNextPossibleChurningBlock := fun t => if t = 1 ∨ t = 3 then some 110 else none
    activeTopics := fun t => decide (t = 1 ∨ t = 3) }

/-- Block 110 holding `[A]` alone, cached lowest `(A, 5)`. -/
def stepA : Keeper :=
  { blockToActiveTopics := fun b => if b = 110 then some [1] else none
    blockToLowestActiveTopicWeight := fun b => if b = 110 then some ⟨5, 1⟩ else none
    topicToNextPossibleChurningBlock := fun t => if t = 1 then some 110 else none
    activeTopics := fun t => decide (t = 1) }

/-- One slot per block; topics 1 and 2 registered with epoch length 10; the weight lookup fails
for topic 1 and gives 5 for topic 2. -/
def unweighedCtx : Context :=
  { blockHeight := 0
    params := ⟨1⟩
    topics := fun t => if t = 1 ∨ t = 2 then some ⟨10⟩ else none
    topicWeight := fun t => if t = 2 then some 5 else none }

/-- One slot per block and a single registered topic, 1, of epoch length 10 and weight 5, seen
at block `height`. -/
def soloCtx (height : BlockHeight) : Context :=
  { blockHeight := height
    params := ⟨1⟩
    topics := fun t => if t = 1 then some ⟨10⟩ else none
    topicWeight := fun t => if t = 1 then some 5 else none }

/-- One slot per block; topics 1 and 2 registered with epoch length 10 and the same weight 5,
seen at block 100. -/
def tieCtx : Context :=
  { blockHeight := 100
    params := ⟨1⟩
    topics := fun t => if t = 1 ∨ t = 2 then some ⟨10⟩ else none
    topicWeight := fun t => if t = 1 ∨ t = 2 then some 5 else none }

/-- A capacity of `2 ^ 32 + 1`, which `int32` reads as 1; topics 1 and 3 registered with epoch
length 10 and weights 1 and 5, seen at block `height`. -/
def wideCtx (height : BlockHeight) : Context :=
  { blockHeight := height
    params := ⟨2 ^ 32 + 1⟩
    topics := fun t => if t = 1 ∨ t = 3 then some ⟨10⟩ else none
    topicWeight := fun t => if t = 1 then some 1 else if t = 3 then some 5 else none }

/-- One slot per block and a single registered topic, 1, of epoch length 10 and weight 5, seen
at a block `height` meant to lie within 10 of the largest `int64`. -/
def lateCtx (height : BlockHeight) : Context :=
  { blockHeight := height
    params := ⟨1⟩
    topics := fun t => if t = 1 then some ⟨10⟩ else none
    topicWeight := fun t => if t = 1 then some 5 else none }

/-- One slot per block; topics 1 and 2 registered with the epoch length `2 ^ 63 - 1`, the
largest `int64`, and the same weight 5, seen at block 100. -/
def farCtx : Context :=
  { blockHeight := 100
    params := ⟨1⟩
    topics := fun t => if t = 1 ∨ t = 2 then some ⟨2 ^ 63 - 1⟩ else none
    topicWeight := fun t => if t = 1 ∨ t = 2 then some 5 else none }

/-! ## Store lemmas -/

@[simp] theorem mapSet_same {κ ν : Type} [DecidableEq κ] (m : κ → Option ν) (key : κ) (v : ν) :
    mapSet m key v key = some v := by
  simp [mapSet]

theorem mapSet_other {κ ν : Type} [DecidableEq κ] (m : κ → Option ν) (key x : κ) (v : ν)
    (h : x ≠ key) : mapSet m key v x = m x := by
  simp [mapSet, h]

@[simp] theorem mapRemove_same {κ ν : Type} [DecidableEq κ] (m : κ → Option ν) (key : κ) :
    mapRemove m key key = none := by
  simp [mapRemove]

theorem mapRemove_other {κ ν : Type} [DecidableEq κ] (m : κ → Option ν) (key x : κ)
    (h : x ≠ key) : mapRemove m key x = m x := by
  simp [mapRemove, h]

theorem mapRemove_absent {κ ν : Type} [DecidableEq κ] (m : κ → Option ν) (key : κ)
    (h : m key = none) : mapRemove m key = m := by
  funext x
  by_cases hx : x = key
  · subst hx; simp [mapRemove, h]
  · simp [mapRemove, hx]

@[simp] theorem keySetAdd_same {κ : Type} [DecidableEq κ] (m : κ → Bool) (key : κ) :
    keySetAdd m key key = true := by
  simp [keySetAdd]

theorem keySetAdd_other {κ : Type} [DecidableEq κ] (m : κ → Bool) (key x : κ)
    (h : x ≠ key) : keySetAdd m key x = m x := by
  simp [keySetAdd, h]

@[simp] theorem keySetRemove_same {κ : Type} [DecidableEq κ] (m : κ → Bool) (key : κ) :
    keySetRemove m key key = false := by
  simp [keySetRemove]

theorem keySetRemove_other {κ : Type} [DecidableEq κ] (m : κ → Bool) (key x : κ)
    (h : x ≠ key) : keySetRemove m key x = m x := by
  simp [keySetRemove, h]

/-! ## The splice loop -/

theorem spliceFirstMatch_eq (topicId : TopicId) (init : List TopicId) :
    ∀ (rest seen : List TopicId),
      spliceFirstMatch topicId init seen rest =
        if topicId ∈ rest then seen ++ rest.erase topicId else init := by
  intro rest
  induction rest with
  | nil => intro seen; simp [spliceFirstMatch]
  | cons id rest ih =>
    intro seen
    by_cases h : id = topicId
    · subst h; simp [spliceFirstMatch]
    · have h2 : ¬ topicId = id := fun e => h e.symm
      have h3 : (id == topicId) = false := by simpa using h
      simp [spliceFirstMatch, h, h2, ih, List.erase_cons, h3]

/-- The loop of `inactivateTopicWithoutMinWeightReset`: the first
occurrence is cut out, and the result is empty when there is none. -/
theorem spliceFirstMatch_nil (topicId : TopicId) (ids : List TopicId) :
    spliceFirstMatch topicId [] [] ids = if topicId ∈ ids then ids.erase topicId else [] := by
  simp [spliceFirstMatch_eq]

/-- The loop of the admission: the first occurrence is cut out, and the
list is left alone when there is none. -/
theorem spliceFirstMatch_self (topicId : TopicId) (ids : List TopicId) :
    spliceFirstMatch topicId ids [] ids = ids.erase topicId := by
  by_cases h : topicId ∈ ids
  · simp [spliceFirstMatch_eq, h]
  · simp [spliceFirstMatch_eq, h, List.erase_of_not_mem h]

theorem int32_of_small (n : Nat) (h : n < 2 ^ 31) : int32 (n : Int) = n := by
  unfold int32
  have h1 : ((n : Int) + 2 ^ 31) % 2 ^ 32 = (n : Int) + 2 ^ 31 := by
    apply Int.emod_eq_of_lt <;> omega
  omega

/-! ## The scan for the lowest weight -/

theorem lowestScanStep_fail (ctx : Context) (st : LowestScan) (t : TopicId)
    (h : ctx.topicWeight t = none) : lowestScanStep ctx st t = st := by
  simp [lowestScanStep, GetTopicWeightFromTopicId, h]

theorem lowestScanStep_ok (ctx : Context) (st : LowestScan) (t : TopicId) (w : Dec)
    (h : ctx.topicWeight t = some w) :
    lowestScanStep ctx st t =
      if w < st.lowestWeight ∨ st.firstIter = true then ⟨false, w, t⟩ else st := by
  simp [lowestScanStep, GetTopicWeightFromTopicId, h]

/-- The scan once a first weight has been recorded. -/
theorem lowestScan_started (ctx : Context) :
    ∀ (l : List TopicId) (w0 : Dec) (t0 : TopicId),
      (l.foldl (lowestScanStep ctx) ⟨false, w0, t0⟩ = ⟨false, w0, t0⟩ ∧
        ∀ u ∈ l, ∀ w, ctx.topicWeight u = some w → w0 ≤ w) ∨
      (∃ pre post t w, l.foldl (lowestScanStep ctx) ⟨false, w0, t0⟩ = ⟨false, w, t⟩ ∧
        l = pre ++ t :: post ∧ ctx.topicWeight t = some w ∧ w < w0 ∧
        (∀ u ∈ pre, ∀ v, ctx.topicWeight u = some v → w < v) ∧
        (∀ u ∈ post, ∀ v, ctx.topicWeight u = some v → w ≤ v)) := by
  intro l
  induction l with
  | nil => intro w0 t0; left; simp
  | cons a l ih =>
    intro w0 t0
    rw [List.foldl_cons]
    cases ha : ctx.topicWeight a with
    | none =>
      rw [lowestScanStep_fail ctx _ a ha]
      rcases ih w0 t0 with ⟨h1, h2⟩ | ⟨pre, post, t, w, h1, h2, h3, h4, h5, h6⟩
      · left
        refine ⟨h1, ?_⟩
        intro u hu w hw
        rcases List.mem_cons.mp hu with rfl | hu
        · rw [ha] at hw; cases hw
        · exact h2 u hu w hw
      · right
        refine ⟨a :: pre, post, t, w, h1, by simp [h2], h3, h4, ?_, h6⟩
        intro u hu v hv
        rcases List.mem_cons.mp hu with rfl | hu
        · rw [ha] at hv; cases hv
        · exact h5 u hu v hv
    | some wa =>
      rw [lowestScanStep_ok ctx _ a wa ha]
      by_cases hlt : wa < w0
      · simp only [hlt, true_or, if_true]
        rcases ih wa a with ⟨h1, h2⟩ | ⟨pre, post, t, w, h1, h2, h3, h4, h5, h6⟩
        · right
          exact ⟨[], l, a, wa, h1, by simp, ha, hlt, by simp, h2⟩
        · right
          refine ⟨a :: pre, post, t, w, h1, by simp [h2], h3, lt_trans h4 hlt, ?_, h6⟩
          intro u hu v hv
          rcases List.mem_cons.mp hu with rfl | hu
          · rw [ha] at hv; cases hv; exact h4
          · exact h5 u hu v hv
      · have hif : ¬ (wa < w0 ∨ (false = true)) := by simp [hlt]
        simp only [hif, if_false]
        rcases ih w0 t0 with ⟨h1, h2⟩ | ⟨pre, post, t, w, h1, h2, h3, h4, h5, h6⟩
        · left
          refine ⟨h1, ?_⟩
          intro u hu w hw
          rcases List.mem_cons.mp hu with rfl | hu
          · rw [ha] at hw; cases hw; exact not_lt.mp hlt
          · exact h2 u hu w hw
        · right
          refine ⟨a :: pre, post, t, w, h1, by simp [h2], h3, h4, ?_, h6⟩
          intro u hu v hv
          rcases List.mem_cons.mp hu with rfl | hu
          · rw [ha] at hv; cases hv; exact lt_of_lt_of_le h4 (not_lt.mp hlt)
          · exact h5 u hu v hv

/-- The scan from its initial state: nothing is recorded while every lookup
fails, and otherwise the first minimum is. -/
theorem lowestScan_initial (ctx : Context) :
    ∀ (l : List TopicId) (w0 : Dec) (t0 : TopicId),
      (l.foldl (lowestScanStep ctx) ⟨true, w0, t0⟩ = ⟨true, w0, t0⟩ ∧
        ∀ u ∈ l, ctx.topicWeight u = none) ∨
      (∃ p, l.foldl (lowestScanStep ctx) ⟨true, w0, t0⟩ = ⟨false, p.Weight, p.TopicId⟩ ∧
        IsFirstLowest ctx l p) := by
  intro l
  induction l with
  | nil => intro w0 t0; left; simp
  | cons a l ih =>
    intro w0 t0
    rw [List.foldl_cons]
    cases ha : ctx.topicWeight a with
    | none =>
      rw [lowestScanStep_fail ctx _ a ha]
      rcases ih w0 t0 with ⟨h1, h2⟩ | ⟨p, h1, pre, post, h2, h3, h4, h5⟩
      · left
        refine ⟨h1, ?_⟩
        intro u hu
        rcases List.mem_cons.mp hu with rfl | hu
        · exact ha
        · exact h2 u hu
      · right
        refine ⟨p, h1, a :: pre, post, by simp [h2], h3, ?_, h5⟩
        intro u hu v hv
        rcases List.mem_cons.mp hu with rfl | hu
        · rw [ha] at hv; cases hv
        · exact h4 u hu v hv
    | some wa =>
      rw [lowestScanStep_ok ctx _ a wa ha]
      simp only [or_true, if_true]
      right
      rcases lowestScan_started ctx l wa a with ⟨h1, h2⟩ | ⟨pre, post, t, w, h1, h2, h3, h4, h5, h6⟩
      · exact ⟨⟨wa, a⟩, h1, [], l, by simp, ha, by simp, h2⟩
      · refine ⟨⟨w, t⟩, h1, a :: pre, post, by simp [h2], h3, ?_, h6⟩
        intro u hu v hv
        rcases List.mem_cons.mp hu with rfl | hu
        · rw [ha] at hv; cases hv; exact h4
        · exact h5 u hu v hv

/-! ## Closed forms of the keeper functions -/

theorem GetActiveTopicIdsAtBlock_eq (k : Keeper) (b : BlockHeight) :
    GetActiveTopicIdsAtBlock k b = .ok ((k.blockToActiveTopics b).getD []) := by
  unfold GetActiveTopicIdsAtBlock
  cases k.blockToActiveTopics b <;> rfl

theorem GetLowestActiveTopicWeightAtBlock_eq (k : Keeper) (b : BlockHeight) :
    GetLowestActiveTopicWeightAtBlock k b =
      .ok ((k.blockToLowestActiveTopicWeight b).getD ⟨0, 0⟩, (k.blockToLowestActiveTopicWeight b).isNone) := by
  unfold GetLowestActiveTopicWeightAtBlock
  cases k.blockToLowestActiveTopicWeight b <;> rfl

theorem inactivate_unregistered (ctx : Context) (k : Keeper) (t : TopicId)
    (h : ctx.topics t = none) :
    inactivateTopicWithoutMinWeightReset ctx k t = .ok (RESERVED_BLOCK, k) := by
  simp [inactivateTopicWithoutMinWeightReset, h]

theorem inactivate_unscheduled (ctx : Context) (k : Keeper) (t : TopicId)
    (h : k.topicToNextPossibleChurningBlock t = none) :
    inactivateTopicWithoutMinWeightReset ctx k t = .ok (RESERVED_BLOCK, k) := by
  unfold inactivateTopicWithoutMinWeightReset
  cases ctx.topics t <;> simp [GetNextPossibleChurningBlockByTopicId, h]

theorem inactivate_past (ctx : Context) (k : Keeper) (t : TopicId) (b : BlockHeight)
    (h : k.topicToNextPossibleChurningBlock t = some b) (hb : b < ctx.blockHeight) :
    inactivateTopicWithoutMinWeightReset ctx k t = .ok (b, k) ∨
      inactivateTopicWithoutMinWeightReset ctx k t = .ok (RESERVED_BLOCK, k) := by
  unfold inactivateTopicWithoutMinWeightReset
  cases ctx.topics t <;> simp [GetNextPossibleChurningBlockByTopicId, h, hb]

theorem inactivate_pending (ctx : Context) (k : Keeper) (t : TopicId) (b : BlockHeight)
    (hreg : (ctx.topics t).isSome = true)
    (h : k.topicToNextPossibleChurningBlock t = some b) (hb : ctx.blockHeight ≤ b) :
    inactivateTopicWithoutMinWeightReset ctx k t = .ok (b, tornDown k t b) := by
  unfold inactivateTopicWithoutMinWeightReset
  simp [hreg, GetNextPossibleChurningBlockByTopicId, h, hb, GetActiveTopicIdsAtBlock_eq,
    spliceFirstMatch_nil, tornDown]

/-- A teardown either changes nothing or is the effective one. -/
theorem inactivate_cases (ctx : Context) (k : Keeper) (t : TopicId) :
    (∃ b, inactivateTopicWithoutMinWeightReset ctx k t = .ok (b, k) ∧
      ((ctx.topics t).isSome = false ∨ k.topicToNextPossibleChurningBlock t = none ∨
        ∃ c, k.topicToNextPossibleChurningBlock t = some c ∧ c < ctx.blockHeight)) ∨
    (∃ b, inactivateTopicWithoutMinWeightReset ctx k t = .ok (b, tornDown k t b) ∧
      (ctx.topics t).isSome = true ∧ k.topicToNextPossibleChurningBlock t = some b ∧
      ctx.blockHeight ≤ b) := by
  cases hreg : ctx.topics t with
  | none => left; exact ⟨_, inactivate_unregistered ctx k t hreg, Or.inl rfl⟩
  | some topic =>
    cases hs : k.topicToNextPossibleChurningBlock t with
    | none => left; exact ⟨_, inactivate_unscheduled ctx k t hs, Or.inr (Or.inl rfl)⟩
    | some b =>
      by_cases hb : ctx.blockHeight ≤ b
      · right
        exact ⟨b, inactivate_pending ctx k t b (by simp [hreg]) hs hb, rfl, rfl, hb⟩
      · left
        have hb2 : b < ctx.blockHeight := not_le.mp hb
        rcases inactivate_past ctx k t b hs hb2 with h | h
        · exact ⟨_, h, Or.inr (Or.inr ⟨b, rfl, hb2⟩)⟩
        · exact ⟨_, h, Or.inr (Or.inr ⟨b, rfl, hb2⟩)⟩

theorem add_present (ctx : Context) (k : Keeper) (t : TopicId) (b : BlockHeight)
    (h : t ∈ (k.blockToActiveTopics b).getD []) :
    addTopicToActiveSetRespectingLimitsWithoutMinWeightReset ctx k t b = .ok (false, k) := by
  unfold addTopicToActiveSetRespectingLimitsWithoutMinWeightReset
  simp [GetParams, GetActiveTopicIdsAtBlock_eq, h]

theorem add_free (ctx : Context) (k : Keeper) (t : TopicId) (b : BlockHeight)
    (h : t ∉ (k.blockToActiveTopics b).getD [])
    (hcap : int32 ((k.blockToActiveTopics b).getD []).length < int32 ctx.params.MaxActiveTopicsPerBlock) :
    addTopicToActiveSetRespectingLimitsWithoutMinWeightReset ctx k t b =
      .ok (true,
        { k with
          blockToActiveTopics :=
            mapSet k.blockToActiveTopics b ((k.blockToActiveTopics b).getD [] ++ [t]) }) := by
  unfold addTopicToActiveSetRespectingLimitsWithoutMinWeightReset
  simp [GetParams, GetActiveTopicIdsAtBlock_eq, h, not_le.mpr hcap]

theorem add_full_no_weight (ctx : Context) (k : Keeper) (t : TopicId) (b : BlockHeight)
    (h : t ∉ (k.blockToActiveTopics b).getD [])
    (hcap : int32 ctx.params.MaxActiveTopicsPerBlock ≤ int32 ((k.blockToActiveTopics b).getD []).length)
    (hw : ctx.topicWeight t = none) :
    addTopicToActiveSetRespectingLimitsWithoutMinWeightReset ctx k t b = .error .weightUnavailable := by
  unfold addTopicToActiveSetRespectingLimitsWithoutMinWeightReset
  simp [GetParams, GetActiveTopicIdsAtBlock_eq, h, hcap, GetLowestActiveTopicWeightAtBlock_eq,
    GetTopicWeightFromTopicId, hw]

theorem add_full_reject (ctx : Context) (k : Keeper) (t : TopicId) (b : BlockHeight) (w : Dec)
    (h : t ∉ (k.blockToActiveTopics b).getD [])
    (hcap : int32 ctx.params.MaxActiveTopicsPerBlock ≤ int32 ((k.blockToActiveTopics b).getD []).length)
    (hw : ctx.topicWeight t = some w)
    (hlt : w < ((k.blockToLowestActiveTopicWeight b).getD ⟨0, 0⟩).Weight) :
    addTopicToActiveSetRespectingLimitsWithoutMinWeightReset ctx k t b = .ok (false, k) := by
  unfold addTopicToActiveSetRespectingLimitsWithoutMinWeightReset
  simp [GetParams, GetActiveTopicIdsAtBlock_eq, h, hcap, GetLowestActiveTopicWeightAtBlock_eq,
    GetTopicWeightFromTopicId, hw, hlt]

theorem add_full_evict (ctx : Context) (k k1 : Keeper) (t : TopicId) (b vacated : BlockHeight) (w : Dec)
    (h : t ∉ (k.blockToActiveTopics b).getD [])
    (hcap : int32 ctx.params.MaxActiveTopicsPerBlock ≤ int32 ((k.blockToActiveTopics b).getD []).length)
    (hw : ctx.topicWeight t = some w)
    (hge : ((k.blockToLowestActiveTopicWeight b).getD ⟨0, 0⟩).Weight ≤ w)
    (hin : inactivateTopicWithoutMinWeightReset ctx k
      ((k.blockToLowestActiveTopicWeight b).getD ⟨0, 0⟩).TopicId = .ok (vacated, k1)) :
    addTopicToActiveSetRespectingLimitsWithoutMinWeightReset ctx k t b =
      .ok (true,
        { k1 with
          blockToActiveTopics :=
            mapSet k1.blockToActiveTopics b
              (((k.blockToActiveTopics b).getD []).erase
                ((k.blockToLowestActiveTopicWeight b).getD ⟨0, 0⟩).TopicId ++ [t]) }) := by
  unfold addTopicToActiveSetRespectingLimitsWithoutMinWeightReset
  simp [GetParams, GetActiveTopicIdsAtBlock_eq, h, hcap, GetLowestActiveTopicWeightAtBlock_eq,
    GetTopicWeightFromTopicId, hw, not_lt.mpr hge, hin, spliceFirstMatch_self]

theorem reset_nonempty (ctx : Context) (k : Keeper) (b : BlockHeight)
    (h : (k.blockToActiveTopics b).getD [] ≠ []) :
    ResetLowestActiveTopicWeightAtBlock ctx k b =
      .ok ((),
        { k with
          blockToLowestActiveTopicWeight :=
            mapSet k.blockToLowestActiveTopicWeight b
              ⟨(((k.blockToActiveTopics b).getD []).foldl (lowestScanStep ctx) ⟨true, 0, 0⟩).lowestWeight,
               (((k.blockToActiveTopics b).getD []).foldl
                  (lowestScanStep ctx) ⟨true, 0, 0⟩).idOfLowestWeightTopic⟩ }) := by
  unfold ResetLowestActiveTopicWeightAtBlock
  simp [GetActiveTopicIdsAtBlock_eq, h]

theorem reset_empty (ctx : Context) (k : Keeper) (b : BlockHeight)
    (h : (k.blockToActiveTopics b).getD [] = []) :
    ResetLowestActiveTopicWeightAtBlock ctx k b = PruneTopicActivationDataAtBlock k b := by
  unfold ResetLowestActiveTopicWeightAtBlock
  simp [GetActiveTopicIdsAtBlock_eq, h]

/-- `ActivateTopic` once its two guards are passed. -/
theorem activate_unguarded (ctx : Context) (k : Keeper) (t : TopicId) (topic : Topic) (b : BlockHeight)
    (hreg : ctx.topics t = some topic)
    (hnp : GetNextPossibleChurningBlockByTopicId ctx k t = .ok (b, false)) :
    ActivateTopic ctx k t =
      match addTopicToActiveSetRespectingLimitsWithoutMinWeightReset ctx k t
          (int64 (ctx.blockHeight + topic.EpochLength)) with
      | .error err => .error err
      | .ok (isAdded, k1) =>
        if !isAdded then .ok ((), k1)
        else
          match ResetLowestActiveTopicWeightAtBlock ctx
              { k1 with
                topicToNextPossibleChurningBlock :=
                  mapSet k1.topicToNextPossibleChurningBlock t (int64 (ctx.blockHeight + topic.EpochLength)) }
              (int64 (ctx.blockHeight + topic.EpochLength)) with
          | .error err => .error err
          | .ok (_, k3) => .ok ((), { k3 with activeTopics := keySetAdd k3.activeTopics t }) := by
  unfold ActivateTopic
  simp [hreg, hnp, GetTopic]

theorem pending_cases (ctx : Context) (k : Keeper) (t : TopicId) (b : BlockHeight)
    (h : GetNextPossibleChurningBlockByTopicId ctx k t = .ok (b, true)) :
    k.topicToNextPossibleChurningBlock t = some b ∧ ctx.blockHeight ≤ b := by
  unfold GetNextPossibleChurningBlockByTopicId at h
  cases hs : k.topicToNextPossibleChurningBlock t with
  | none => rw [hs] at h; simp at h
  | some c =>
    rw [hs] at h
    simp at h
    exact ⟨by rw [h.1], by rw [← h.1]; exact h.2⟩

theorem getD_of_get (k : Keeper) (b : BlockHeight) (l : List TopicId)
    (h : GetActiveTopicIdsAtBlock k b = .ok l) : (k.blockToActiveTopics b).getD [] = l := by
  rw [GetActiveTopicIdsAtBlock_eq] at h
  injection h



/-- The possible outcomes of the admission. -/
theorem add_cases (ctx : Context) (k : Keeper) (t : TopicId) (s : BlockHeight) :
    addTopicToActiveSetRespectingLimitsWithoutMinWeightReset ctx k t s = .ok (false, k) ∨
    addTopicToActiveSetRespectingLimitsWithoutMinWeightReset ctx k t s = .error .weightUnavailable ∨
    (t ∉ (k.blockToActiveTopics s).getD [] ∧
      int32 ((k.blockToActiveTopics s).getD []).length < int32 ctx.params.MaxActiveTopicsPerBlock ∧
      addTopicToActiveSetRespectingLimitsWithoutMinWeightReset ctx k t s =
        .ok (true,
          { k with
            blockToActiveTopics :=
              mapSet k.blockToActiveTopics s ((k.blockToActiveTopics s).getD [] ++ [t]) })) ∨
    (t ∉ (k.blockToActiveTopics s).getD [] ∧
      int32 ctx.params.MaxActiveTopicsPerBlock ≤ int32 ((k.blockToActiveTopics s).getD []).length ∧
      (∃ w, ctx.topicWeight t = some w ∧
        ((k.blockToLowestActiveTopicWeight s).getD ⟨0, 0⟩).Weight ≤ w) ∧
      ∃ v k1, inactivateTopicWithoutMinWeightReset ctx k
          ((k.blockToLowestActiveTopicWeight s).getD ⟨0, 0⟩).TopicId = .ok (v, k1) ∧
        addTopicToActiveSetRespectingLimitsWithoutMinWeightReset ctx k t s =
          .ok (true,
            { k1 with
              blockToActiveTopics :=
                mapSet k1.blockToActiveTopics s
                  (((k.blockToActiveTopics s).getD []).erase
                    ((k.blockToLowestActiveTopicWeight s).getD ⟨0, 0⟩).TopicId ++ [t]) })) := by
  by_cases hmem : t ∈ (k.blockToActiveTopics s).getD []
  · left; exact add_present ctx k t s hmem
  · by_cases hcap : int32 ctx.params.MaxActiveTopicsPerBlock ≤ int32 ((k.blockToActiveTopics s).getD []).length
    · cases hw : ctx.topicWeight t with
      | none => right; left; exact add_full_no_weight ctx k t s hmem hcap hw
      | some w =>
        by_cases hlt : w < ((k.blockToLowestActiveTopicWeight s).getD ⟨0, 0⟩).Weight
        · left; exact add_full_reject ctx k t s w hmem hcap hw hlt
        · right; right; right
          obtain ⟨v, k1, hin⟩ : ∃ v k1, inactivateTopicWithoutMinWeightReset ctx k
              ((k.blockToLowestActiveTopicWeight s).getD ⟨0, 0⟩).TopicId = .ok (v, k1) := by
            rcases inactivate_cases ctx k ((k.blockToLowestActiveTopicWeight s).getD ⟨0, 0⟩).TopicId
              with ⟨v, hin, _⟩ | ⟨v, hin, _⟩
            · exact ⟨v, _, hin⟩
            · exact ⟨v, _, hin⟩
          exact ⟨hmem, hcap, ⟨w, rfl, not_lt.mp hlt⟩, v, k1, hin,
            add_full_evict ctx k k1 t s v w hmem hcap hw (not_lt.mp hlt) hin⟩
    · right; right; left
      exact ⟨hmem, not_le.mp hcap, add_free ctx k t s hmem (not_le.mp hcap)⟩

/-- After an admission the target block holds the admitted topic. -/
theorem add_true_mem (ctx : Context) (k k1 : Keeper) (t : TopicId) (s : BlockHeight)
    (h : addTopicToActiveSetRespectingLimitsWithoutMinWeightReset ctx k t s = .ok (true, k1)) :
    t ∈ (k1.blockToActiveTopics s).getD [] := by
  rcases add_cases ctx k t s with h1 | h1 | ⟨_, _, h1⟩ | ⟨_, _, _, v, k2, _, h1⟩
  · rw [h1] at h; injection h with h; have := congrArg Prod.fst h; simp at this
  · rw [h1] at h; cases h
  · rw [h1] at h; injection h with h; have := congrArg Prod.snd h; simp at this; subst this; simp
  · rw [h1] at h; injection h with h; have := congrArg Prod.snd h; simp at this; subst this; simp

/-- A guarded topic is either pending or not. -/
theorem pending_or_not (ctx : Context) (k : Keeper) (t : TopicId) :
    ∃ b p, GetNextPossibleChurningBlockByTopicId ctx k t = .ok (b, p) := by
  unfold GetNextPossibleChurningBlockByTopicId
  cases k.topicToNextPossibleChurningBlock t <;> exact ⟨_, _, rfl⟩

/-- `ActivateTopic` after a successful admission. -/
theorem activate_admitted (ctx : Context) (k k1 : Keeper) (t : TopicId) (topic : Topic)
    (b : BlockHeight)
    (hreg : ctx.topics t = some topic)
    (hnp : GetNextPossibleChurningBlockByTopicId ctx k t = .ok (b, false))
    (hadd : addTopicToActiveSetRespectingLimitsWithoutMinWeightReset ctx k t
      (int64 (ctx.blockHeight + topic.EpochLength)) = .ok (true, k1)) :
    ActivateTopic ctx k t = .ok ((),
      { blockToActiveTopics := k1.blockToActiveTopics
        blockToLowestActiveTopicWeight :=
          mapSet k1.blockToLowestActiveTopicWeight (int64 (ctx.blockHeight + topic.EpochLength))
            (scannedPair ctx ((k1.blockToActiveTopics (int64 (ctx.blockHeight + topic.EpochLength))).getD []))
        topicToNextPossibleChurningBlock :=
          mapSet k1.topicToNextPossibleChurningBlock t (int64 (ctx.blockHeight + topic.EpochLength))
        activeTopics := keySetAdd k1.activeTopics t }) := by
  have hm := add_true_mem ctx k k1 t _ hadd
  rw [activate_unguarded ctx k t topic b hreg hnp, hadd]
  simp only [Bool.not_true, Bool.false_eq_true, if_false]
  rw [reset_nonempty _ _ _ (by intro e; rw [e] at hm; simp at hm)]
  rfl

/-- The possible outcomes of `ActivateTopic`. -/
theorem activate_cases (ctx : Context) (k : Keeper) (t : TopicId) :
    ActivateTopic ctx k t = .ok ((), k) ∨
    ActivateTopic ctx k t = .error .weightUnavailable ∨
    ∃ topic b k1, ctx.topics t = some topic ∧
      GetNextPossibleChurningBlockByTopicId ctx k t = .ok (b, false) ∧
      addTopicToActiveSetRespectingLimitsWithoutMinWeightReset ctx k t
        (int64 (ctx.blockHeight + topic.EpochLength)) = .ok (true, k1) ∧
      ActivateTopic ctx k t = .ok ((),
        { blockToActiveTopics := k1.blockToActiveTopics
          blockToLowestActiveTopicWeight :=
            mapSet k1.blockToLowestActiveTopicWeight (int64 (ctx.blockHeight + topic.EpochLength))
              (scannedPair ctx
                ((k1.blockToActiveTopics (int64 (ctx.blockHeight + topic.EpochLength))).getD []))
          topicToNextPossibleChurningBlock :=
            mapSet k1.topicToNextPossibleChurningBlock t (int64 (ctx.blockHeight + topic.EpochLength))
          activeTopics := keySetAdd k1.activeTopics t }) := by
  cases hreg : ctx.topics t with
  | none => left; simp [ActivateTopic, hreg]
  | some topic =>
    obtain ⟨b, p, hp⟩ := pending_or_not ctx k t
    cases p with
    | true => left; simp [ActivateTopic, hreg, hp]
    | false =>
      rcases add_cases ctx k t (int64 (ctx.blockHeight + topic.EpochLength)) with
        h | h | ⟨_, _, h⟩ | ⟨_, _, _, v, k2, _, h⟩
      · left; rw [activate_unguarded ctx k t topic b hreg hp, h]; rfl
      · right; left; rw [activate_unguarded ctx k t topic b hreg hp, h]
      · right; right
        exact ⟨topic, b, _, rfl, hp, h, activate_admitted ctx k _ t topic b hreg hp h⟩
      · right; right
        exact ⟨topic, b, _, rfl, hp, h, activate_admitted ctx k _ t topic b hreg hp h⟩

theorem tornDown_consistent (k : Keeper) (T : TopicId) (b : BlockHeight)
    (hI : Consistent k) (hs : k.topicToNextPossibleChurningBlock T = some b) :
    Consistent (tornDown k T b) := by
  intro t
  by_cases ht : t = T
  · subst ht
    simp [tornDown]
  · obtain ⟨h1, h2⟩ := hI t
    refine ⟨by simpa [tornDown, keySetRemove, mapRemove, ht] using h1, ?_⟩
    constructor
    · intro hsch
      have hsch2 : (k.topicToNextPossibleChurningBlock t).isSome = true := by
        simpa [tornDown, mapRemove, ht] using hsch
      obtain ⟨c, hc, hmem⟩ := h2.mp hsch2
      refine ⟨c, by simpa [tornDown, mapRemove, ht] using hc, ?_⟩
      by_cases hcb : c = b
      · subst hcb
        obtain ⟨c2, hc2, hT⟩ := (hI T).2.mp (by rw [hs]; rfl)
        rw [hs] at hc2
        injection hc2 with hc2
        subst hc2
        simp only [tornDown, mapSet_same, Option.getD_some, hT, if_true]
        exact (List.mem_erase_of_ne ht).mpr hmem
      · simpa [tornDown, mapSet, hcb] using hmem
    · rintro ⟨c, hc, _⟩
      rw [hc]; rfl

/-- The admission leaves every other topic consistent and puts the candidate in the list of
the target block. -/
theorem add_keeps_others (ctx : Context) (k k1 : Keeper) (T : TopicId) (s : BlockHeight)
    (hI : Consistent k) (hR : ScheduledRegistered ctx k) (hs : ctx.blockHeight ≤ s)
    (hadd : addTopicToActiveSetRespectingLimitsWithoutMinWeightReset ctx k T s = .ok (true, k1)) :
    (∀ t, t ≠ T →
      (k1.activeTopics t = true ↔ (k1.topicToNextPossibleChurningBlock t).isSome = true) ∧
      ((k1.topicToNextPossibleChurningBlock t).isSome = true →
        ∃ b, k1.topicToNextPossibleChurningBlock t = some b ∧
          t ∈ (k1.blockToActiveTopics b).getD [])) ∧
    (∀ t, (k1.topicToNextPossibleChurningBlock t).isSome = true →
      (k.topicToNextPossibleChurningBlock t).isSome = true) := by
  have key : ∀ (k0 : Keeper) (l1 : List TopicId), Consistent k0 →
      (∀ t, t ≠ T → k0.topicToNextPossibleChurningBlock t = some s → t ∈ l1) →
      k1 = { k0 with blockToActiveTopics := mapSet k0.blockToActiveTopics s l1 } →
      (∀ t, t ≠ T →
        (k1.activeTopics t = true ↔ (k1.topicToNextPossibleChurningBlock t).isSome = true) ∧
        ((k1.topicToNextPossibleChurningBlock t).isSome = true →
          ∃ b, k1.topicToNextPossibleChurningBlock t = some b ∧
            t ∈ (k1.blockToActiveTopics b).getD [])) := by
    intro k0 l1 h0 hl1 hk1 t ht
    subst hk1
    obtain ⟨h1, h2⟩ := h0 t
    refine ⟨h1, ?_⟩
    intro hsch
    obtain ⟨c, hc, hmem⟩ := h2.mp hsch
    refine ⟨c, hc, ?_⟩
    by_cases hcs : c = s
    · subst hcs
      simpa using hl1 t ht hc
    · simpa [mapSet, hcs] using hmem
  rcases add_cases ctx k T s with h | h | ⟨_, _, h⟩ | ⟨_, _, _, v, k0, hin, h⟩
  · rw [h] at hadd; injection hadd with hadd; have := congrArg Prod.fst hadd; simp at this
  · rw [h] at hadd; cases hadd
  · rw [h] at hadd; injection hadd with hadd
    have hk1 := (congrArg Prod.snd hadd).symm
    simp only at hk1
    refine ⟨key k _ hI ?_ hk1, ?_⟩
    · intro t _ hts
      obtain ⟨c, hc, hmem⟩ := (hI t).2.mp (by rw [hts]; rfl)
      rw [hts] at hc; injection hc with hc; subst hc
      simp [hmem]
    · intro t ht; rw [hk1] at ht; exact ht
  · rw [h] at hadd; injection hadd with hadd
    have hk1 := (congrArg Prod.snd hadd).symm
    simp only at hk1
    rcases inactivate_cases ctx k ((k.blockToLowestActiveTopicWeight s).getD ⟨0, 0⟩).TopicId with
      ⟨v2, hin2, hwhy⟩ | ⟨v2, hin2, hreg, hsch, hpend⟩
    · rw [hin2] at hin; injection hin with hin
      have hk0 : k0 = k := (congrArg Prod.snd hin).symm
      subst hk0
      refine ⟨key k0 _ hI ?_ hk1, ?_⟩
      · intro t ht hts
        obtain ⟨c, hc, hmem⟩ := (hI t).2.mp (by rw [hts]; rfl)
        rw [hts] at hc; injection hc with hc; subst hc
        have hne : t ≠ ((k0.blockToLowestActiveTopicWeight s).getD ⟨0, 0⟩).TopicId := by
          intro e
          rw [← e] at hwhy
          rcases hwhy with h1 | h1 | ⟨c, h1, h2⟩
          · have := hR t (by rw [hts]; rfl)
            rw [h1] at this; cases this
          · rw [hts] at h1; cases h1
          · rw [hts] at h1; injection h1 with h1; subst h1
            exact absurd hs (not_le.mpr h2)
        simp [(List.mem_erase_of_ne hne).mpr hmem]
      · intro t ht; rw [hk1] at ht; exact ht
    · rw [hin2] at hin; injection hin with hin
      have hk0 : k0 = tornDown k _ v2 := (congrArg Prod.snd hin).symm
      have hI0 : Consistent k0 := by rw [hk0]; exact tornDown_consistent k _ v2 hI hsch
      refine ⟨key k0 _ hI0 ?_ hk1, ?_⟩
      · intro t ht hts
        have hne : t ≠ ((k.blockToLowestActiveTopicWeight s).getD ⟨0, 0⟩).TopicId := by
          intro e
          rw [hk0, ← e] at hts
          simp [tornDown] at hts
        have hts2 : k.topicToNextPossibleChurningBlock t = some s := by
          rw [hk0] at hts
          simpa [tornDown, mapRemove, hne] using hts
        obtain ⟨c, hc, hmem⟩ := (hI t).2.mp (by rw [hts2]; rfl)
        rw [hts2] at hc; injection hc with hc; subst hc
        simp [(List.mem_erase_of_ne hne).mpr hmem]
      · intro t ht
        rw [hk1, hk0] at ht
        by_cases hne : t = ((k.blockToLowestActiveTopicWeight s).getD ⟨0, 0⟩).TopicId
        · rw [hne] at ht; simp [tornDown] at ht
        · simpa [tornDown, mapRemove, hne] using ht

/-- The possible outcomes of `UpdateActiveTopic`. -/
theorem update_cases (ctx : Context) (k : Keeper) (t : TopicId) :
    UpdateActiveTopic ctx k t = .ok ((), k) ∨
    (∃ e, UpdateActiveTopic ctx k t = .error e) ∨
    ∃ topic k1, ctx.topics t = some topic ∧
      addTopicToActiveSetRespectingLimitsWithoutMinWeightReset ctx k t
        (int64 (ctx.blockHeight + topic.EpochLength)) = .ok (true, k1) ∧
      UpdateActiveTopic ctx k t = .ok ((),
        { blockToActiveTopics := k1.blockToActiveTopics
          blockToLowestActiveTopicWeight :=
            mapSet k1.blockToLowestActiveTopicWeight (int64 (ctx.blockHeight + topic.EpochLength))
              (scannedPair ctx
                ((k1.blockToActiveTopics (int64 (ctx.blockHeight + topic.EpochLength))).getD []))
          topicToNextPossibleChurningBlock :=
            mapSet k1.topicToNextPossibleChurningBlock t (int64 (ctx.blockHeight + topic.EpochLength))
          activeTopics := k1.activeTopics }) := by
  cases hreg : ctx.topics t with
  | none => right; left; exact ⟨.topicNotFound, by simp [UpdateActiveTopic, GetTopic, hreg]⟩
  | some topic =>
    have hadm : ∀ k1, addTopicToActiveSetRespectingLimitsWithoutMinWeightReset ctx k t
        (int64 (ctx.blockHeight + topic.EpochLength)) = .ok (true, k1) →
        UpdateActiveTopic ctx k t = .ok ((),
          { blockToActiveTopics := k1.blockToActiveTopics
            blockToLowestActiveTopicWeight :=
              mapSet k1.blockToLowestActiveTopicWeight (int64 (ctx.blockHeight + topic.EpochLength))
                (scannedPair ctx
                  ((k1.blockToActiveTopics (int64 (ctx.blockHeight + topic.EpochLength))).getD []))
            topicToNextPossibleChurningBlock :=
              mapSet k1.topicToNextPossibleChurningBlock t (int64 (ctx.blockHeight + topic.EpochLength))
            activeTopics := k1.activeTopics }) := by
      intro k1 hadd
      have hm := add_true_mem ctx k k1 t _ hadd
      simp only [UpdateActiveTopic, GetTopic, hreg, hadd, Bool.not_true, Bool.false_eq_true,
        if_false]
      rw [reset_nonempty _ _ _ (by intro e; rw [e] at hm; simp at hm)]
      rfl
    rcases add_cases ctx k t (int64 (ctx.blockHeight + topic.EpochLength)) with
      h | h | ⟨_, _, h⟩ | ⟨_, _, _, v, k2, _, h⟩
    · left; simp [UpdateActiveTopic, GetTopic, hreg, h]
    · right; left; exact ⟨.weightUnavailable, by simp [UpdateActiveTopic, GetTopic, hreg, h]⟩
    · right; right; exact ⟨topic, _, rfl, h, hadm _ h⟩
    · right; right; exact ⟨topic, _, rfl, h, hadm _ h⟩

/-- What the admission does to the churn schedule and the registry: nothing, or the teardown of
one topic. -/
theorem add_schedule_registry (ctx : Context) (k k1 : Keeper) (t : TopicId) (s : BlockHeight)
    (r : Bool)
    (hadd : addTopicToActiveSetRespectingLimitsWithoutMinWeightReset ctx k t s = .ok (r, k1)) :
    (k1.topicToNextPossibleChurningBlock = k.topicToNextPossibleChurningBlock ∧
      k1.activeTopics = k.activeTopics) ∨
    ∃ B, k1.topicToNextPossibleChurningBlock = mapRemove k.topicToNextPossibleChurningBlock B ∧
      k1.activeTopics = keySetRemove k.activeTopics B := by
  rcases add_cases ctx k t s with h | h | ⟨_, _, h⟩ | ⟨_, _, _, v, k0, hin, h⟩
  · rw [h] at hadd; injection hadd with hadd
    have := (congrArg Prod.snd hadd).symm; simp only at this; subst this
    left; exact ⟨rfl, rfl⟩
  · rw [h] at hadd; cases hadd
  · rw [h] at hadd; injection hadd with hadd
    have := (congrArg Prod.snd hadd).symm; simp only at this; subst this
    left; exact ⟨rfl, rfl⟩
  · rw [h] at hadd; injection hadd with hadd
    have := (congrArg Prod.snd hadd).symm; simp only at this; subst this
    rcases inactivate_cases ctx k ((k.blockToLowestActiveTopicWeight s).getD ⟨0, 0⟩).TopicId with
      ⟨v2, hin2, _⟩ | ⟨v2, hin2, _⟩
    · rw [hin2] at hin; injection hin with hin
      have := (congrArg Prod.snd hin).symm; simp only at this; subst this
      left; exact ⟨rfl, rfl⟩
    · rw [hin2] at hin; injection hin with hin
      have := (congrArg Prod.snd hin).symm; simp only at this; subst this
      right; exact ⟨_, rfl, rfl⟩

theorem runCalls_induction (P : Keeper → Prop) (ok : Context × Call → Prop)
    (hstep : ∀ k c, ok c → P k → P (applyCall k c)) :
    ∀ (calls : List (Context × Call)) (k : Keeper), (∀ c ∈ calls, ok c) → P k →
      P (runCalls k calls) := by
  intro calls
  induction calls with
  | nil => intro k _ hk; exact hk
  | cons c rest ih =>
    intro k hall hk
    exact ih (applyCall k c) (fun d hd => hall d (List.mem_cons_of_mem c hd))
      (hstep k c (hall c (List.mem_cons_self c rest)) hk)

theorem registryScheduled_removed (k : Keeper) (B : TopicId) (h : RegistryScheduled k) :
    ∀ t, keySetRemove k.activeTopics B t = true →
      (mapRemove k.topicToNextPossibleChurningBlock B t).isSome = true := by
  intro t ht
  by_cases e : t = B
  · subst e; simp at ht
  · rw [keySetRemove_other _ _ _ e] at ht
    rw [mapRemove_other _ _ _ e]
    exact h t ht

theorem scheduledInRegistry_removed (k : Keeper) (B : TopicId) (h : ScheduledInRegistry k) :
    ∀ t, (mapRemove k.topicToNextPossibleChurningBlock B t).isSome = true →
      keySetRemove k.activeTopics B t = true := by
  intro t ht
  by_cases e : t = B
  · subst e; simp at ht
  · rw [mapRemove_other _ _ _ e] at ht
    rw [keySetRemove_other _ _ _ e]
    exact h t ht

theorem applyCall_registryScheduled (k : Keeper) (c : Context × Call)
    (h : RegistryScheduled k) : RegistryScheduled (applyCall k c) := by
  obtain ⟨ctx, call⟩ := c
  have hadd : ∀ (k1 : Keeper) (t : TopicId) (s : BlockHeight) (r : Bool),
      addTopicToActiveSetRespectingLimitsWithoutMinWeightReset ctx k t s = .ok (r, k1) →
      RegistryScheduled k1 := by
    intro k1 t s r hk1
    rcases add_schedule_registry ctx k k1 t s r hk1 with ⟨h1, h2⟩ | ⟨B, h1, h2⟩
    · intro u hu; rw [h1]; rw [h2] at hu; exact h u hu
    · intro u hu; rw [h1]; rw [h2] at hu; exact registryScheduled_removed k B h u hu
  cases call with
  | activate t =>
    simp only [applyCall, Call.run]
    rcases activate_cases ctx k t with h1 | h1 | ⟨topic, b, k1, _, _, ha, h1⟩
    · rw [h1]; exact h
    · rw [h1]; exact h
    · rw [h1]
      intro u hu
      by_cases e : u = t
      · subst e; simp
      · simp only [keySetAdd_other _ _ _ e] at hu
        simp only [mapSet_other _ _ _ _ e]
        exact hadd k1 _ _ _ ha u hu
  | inactivate t =>
    simp only [applyCall, Call.run, InactivateTopic]
    rcases inactivate_cases ctx k t with ⟨v, hin, _⟩ | ⟨v, hin, _⟩
    · rw [hin]; exact h
    · rw [hin]; exact registryScheduled_removed k t h
  | update t =>
    simp only [applyCall, Call.run]
    rcases update_cases ctx k t with h1 | ⟨e, h1⟩ | ⟨topic, k1, _, ha, h1⟩
    · rw [h1]; exact h
    · rw [h1]; exact h
    · rw [h1]
      intro u hu
      by_cases e : u = t
      · subst e; simp
      · simp only [mapSet_other _ _ _ _ e]
        exact hadd k1 _ _ _ ha u hu
  | prune b => exact h
  | reset b =>
    simp only [applyCall, Call.run]
    by_cases hl : (k.blockToActiveTopics b).getD [] = []
    · rw [reset_empty ctx k b hl]; exact h
    · rw [reset_nonempty ctx k b hl]; exact h

theorem applyCall_scheduledInRegistry (k : Keeper) (c : Context × Call)
    (hc : c.2.isUpdate = false) (h : ScheduledInRegistry k) :
    ScheduledInRegistry (applyCall k c) := by
  obtain ⟨ctx, call⟩ := c
  have hadd : ∀ (k1 : Keeper) (t : TopicId) (s : BlockHeight) (r : Bool),
      addTopicToActiveSetRespectingLimitsWithoutMinWeightReset ctx k t s = .ok (r, k1) →
      ScheduledInRegistry k1 := by
    intro k1 t s r hk1
    rcases add_schedule_registry ctx k k1 t s r hk1 with ⟨h1, h2⟩ | ⟨B, h1, h2⟩
    · intro u hu; rw [h2]; rw [h1] at hu; exact h u hu
    · intro u hu; rw [h2]; rw [h1] at hu; exact scheduledInRegistry_removed k B h u hu
  cases call with
  | activate t =>
    simp only [applyCall, Call.run]
    rcases activate_cases ctx k t with h1 | h1 | ⟨topic, b, k1, _, _, ha, h1⟩
    · rw [h1]; exact h
    · rw [h1]; exact h
    · rw [h1]
      intro u hu
      by_cases e : u = t
      · subst e; simp
      · simp only [mapSet_other _ _ _ _ e] at hu
        simp only [keySetAdd_other _ _ _ e]
        exact hadd k1 _ _ _ ha u hu
  | inactivate t =>
    simp only [applyCall, Call.run, InactivateTopic]
    rcases inactivate_cases ctx k t with ⟨v, hin, _⟩ | ⟨v, hin, _⟩
    · rw [hin]; exact h
    · rw [hin]; exact scheduledInRegistry_removed k t h
  | update t => simp [Call.isUpdate] at hc
  | prune b => exact h
  | reset b =>
    simp only [applyCall, Call.run]
    by_cases hl : (k.blockToActiveTopics b).getD [] = []
    · rw [reset_empty ctx k b hl]; exact h
    · rw [reset_nonempty ctx k b hl]; exact h

/-! ## Scheduled topics are registered -/

theorem applyCall_scheduledRegistered (reg : TopicId → Option Topic) (k : Keeper)
    (c : Context × Call) (hc : c.1.topics = reg)
    (h : ∀ t, (k.topicToNextPossibleChurningBlock t).isSome = true → (reg t).isSome = true) :
    ∀ t, ((applyCall k c).topicToNextPossibleChurningBlock t).isSome = true →
      (reg t).isSome = true := by
  obtain ⟨ctx, call⟩ := c
  simp only at hc
  have hadd : ∀ (k1 : Keeper) (t : TopicId) (s : BlockHeight) (r : Bool),
      addTopicToActiveSetRespectingLimitsWithoutMinWeightReset ctx k t s = .ok (r, k1) →
      ∀ u, (k1.topicToNextPossibleChurningBlock u).isSome = true → (reg u).isSome = true := by
    intro k1 t s r hk1 u hu
    rcases add_schedule_registry ctx k k1 t s r hk1 with ⟨h1, _⟩ | ⟨B, h1, _⟩
    · rw [h1] at hu; exact h u hu
    · rw [h1] at hu
      by_cases e : u = B
      · subst e; simp at hu
      · rw [mapRemove_other _ _ _ e] at hu; exact h u hu
  cases call with
  | activate t =>
    simp only [applyCall, Call.run]
    rcases activate_cases ctx k t with h1 | h1 | ⟨topic, b, k1, hreg, _, ha, h1⟩
    · rw [h1]; exact h
    · rw [h1]; exact h
    · rw [h1]
      intro u hu
      by_cases e : u = t
      · subst e; rw [← hc, hreg]; rfl
      · simp only [mapSet_other _ _ _ _ e] at hu
        exact hadd k1 _ _ _ ha u hu
  | inactivate t =>
    simp only [applyCall, Call.run, InactivateTopic]
    rcases inactivate_cases ctx k t with ⟨v, hin, _⟩ | ⟨v, hin, _⟩
    · rw [hin]; exact h
    · rw [hin]
      intro u hu
      by_cases e : u = t
      · subst e; simp [tornDown] at hu
      · simp only [tornDown, mapRemove_other _ _ _ e] at hu
        exact h u hu
  | update t =>
    simp only [applyCall, Call.run]
    rcases update_cases ctx k t with h1 | ⟨e, h1⟩ | ⟨topic, k1, hreg, ha, h1⟩
    · rw [h1]; exact h
    · rw [h1]; exact h
    · rw [h1]
      intro u hu
      by_cases e : u = t
      · subst e; rw [← hc, hreg]; rfl
      · simp only [mapSet_other _ _ _ _ e] at hu
        exact hadd k1 _ _ _ ha u hu
  | prune b => exact h
  | reset b =>
    simp only [applyCall, Call.run]
    by_cases hl : (k.blockToActiveTopics b).getD [] = []
    · rw [reset_empty ctx k b hl]; exact h
    · rw [reset_nonempty ctx k b hl]; exact h

/-- With one topic registry throughout, every state reached from empty stores schedules
registered topics only. -/
theorem scheduledRegistered_reachable (ctx : Context) (calls : List (Context × Call))
    (hcalls : ∀ c ∈ calls, c.1.topics = ctx.topics) :
    ScheduledRegistered ctx (runCalls Keeper.empty calls) :=
  runCalls_induction
    (fun k => ∀ t, (k.topicToNextPossibleChurningBlock t).isSome = true →
      (ctx.topics t).isSome = true)
    (fun c => c.1.topics = ctx.topics)
    (fun k c hc hk => applyCall_scheduledRegistered ctx.topics k c hc hk) calls Keeper.empty
    hcalls (by intro t ht; simp [Keeper.empty] at ht)

/-! ## The capacity of a block -/

theorem scannedPair_mem (ctx : Context) (hw : WeightsKnown ctx) (l : List TopicId)
    (hne : l ≠ []) : (scannedPair ctx l).TopicId ∈ l := by
  unfold scannedPair
  rcases lowestScan_initial ctx l 0 0 with ⟨_, h2⟩ | ⟨p, h1, pre, post, h2, _⟩
  · obtain ⟨a, ha⟩ := List.exists_mem_of_ne_nil l hne
    have := hw a
    rw [h2 a ha] at this
    cases this
  · rw [h1]
    simp only
    rw [h2]
    simp

theorem tornDown_capacity (M : Nat) (hM : 1 ≤ M) (k : Keeper) (T : TopicId) (b : BlockHeight)
    (h : ∀ s, CapacityAt M k s) : ∀ s, CapacityAt M (tornDown k T b) s := by
  intro s
  by_cases hs : s = b
  · subst hs
    have hlen : ((( tornDown k T s).blockToActiveTopics s).getD []).length < M := by
      simp only [tornDown, mapSet_same, Option.getD_some]
      by_cases hT : T ∈ (k.blockToActiveTopics s).getD []
      · simp only [hT, if_true]
        rw [List.length_erase_of_mem hT]
        have h1 := (h s).1
        have h2 := List.length_pos_of_mem hT
        omega
      · simp only [hT, if_false, List.length_nil]
        omega
    exact ⟨le_of_lt hlen, fun e => absurd e (ne_of_lt hlen)⟩
  · have h1 : (tornDown k T b).blockToActiveTopics s = k.blockToActiveTopics s := by
      simp [tornDown, mapSet, hs]
    unfold CapacityAt
    rw [h1]
    exact h s

/-- The admission keeps every other block within capacity and fills the target block to at most
the capacity. -/
theorem add_capacity (M : Nat) (hM1 : 1 ≤ M) (hM2 : M < 2 ^ 31) (ctx : Context) (k k1 : Keeper)
    (T : TopicId) (s : BlockHeight) (hctx : ctx.params.MaxActiveTopicsPerBlock = M)
    (h : ∀ b, CapacityAt M k b)
    (hadd : addTopicToActiveSetRespectingLimitsWithoutMinWeightReset ctx k T s = .ok (true, k1)) :
    (∀ b, b ≠ s → CapacityAt M k1 b) ∧ ((k1.blockToActiveTopics s).getD []).length ≤ M := by
  have hlen := (h s).1
  have hsmall : ((k.blockToActiveTopics s).getD []).length < 2 ^ 31 := lt_of_le_of_lt hlen hM2
  have key : ∀ (k0 : Keeper) (l1 : List TopicId), (∀ b, CapacityAt M k0 b) → l1.length ≤ M →
      k1 = { k0 with blockToActiveTopics := mapSet k0.blockToActiveTopics s l1 } →
      (∀ b, b ≠ s → CapacityAt M k1 b) ∧ ((k1.blockToActiveTopics s).getD []).length ≤ M := by
    intro k0 l1 h0 hl1 hk1
    subst hk1
    refine ⟨?_, by simpa using hl1⟩
    intro b hb
    have h1 : mapSet k0.blockToActiveTopics s l1 b = k0.blockToActiveTopics b :=
      mapSet_other _ _ _ _ hb
    unfold CapacityAt
    simp only [h1]
    exact h0 b
  rcases add_cases ctx k T s with h1 | h1 | ⟨_, hcap, h1⟩ | ⟨_, hcap, _, v, k0, hin, h1⟩
  · rw [h1] at hadd; injection hadd with hadd; have := congrArg Prod.fst hadd; simp at this
  · rw [h1] at hadd; cases hadd
  · rw [h1] at hadd; injection hadd with hadd
    have hk1 := (congrArg Prod.snd hadd).symm
    simp only at hk1
    rw [hctx, int32_of_small _ hM2, int32_of_small _ hsmall] at hcap
    have hcap2 : ((k.blockToActiveTopics s).getD []).length < M := by exact_mod_cast hcap
    exact key k _ h (by simp; omega) hk1
  · rw [h1] at hadd; injection hadd with hadd
    have hk1 := (congrArg Prod.snd hadd).symm
    simp only at hk1
    rw [hctx, int32_of_small _ hM2, int32_of_small _ hsmall] at hcap
    have hcap2 : M ≤ ((k.blockToActiveTopics s).getD []).length := by exact_mod_cast hcap
    have hfull : ((k.blockToActiveTopics s).getD []).length = M := le_antisymm hlen hcap2
    obtain ⟨p, hp, hmem⟩ := (h s).2 hfull
    have hlow : (k.blockToLowestActiveTopicWeight s).getD ⟨0, 0⟩ = p := by rw [hp]; rfl
    rw [hlow] at hk1 hin
    have hl1 : (((k.blockToActiveTopics s).getD []).erase p.TopicId ++ [T]).length ≤ M := by
      rw [List.length_append, List.length_erase_of_mem hmem]
      have := List.length_pos_of_mem hmem
      simp only [List.length_singleton]
      omega
    rcases inactivate_cases ctx k p.TopicId with ⟨v2, hin2, _⟩ | ⟨v2, hin2, _⟩
    · rw [hin2] at hin; injection hin with hin
      have hk0 : k0 = k := (congrArg Prod.snd hin).symm
      subst hk0
      exact key k0 _ h hl1 hk1
    · rw [hin2] at hin; injection hin with hin
      have hk0 : k0 = tornDown k p.TopicId v2 := (congrArg Prod.snd hin).symm
      exact key k0 _ (by rw [hk0]; exact tornDown_capacity M hM1 k _ _ h) hl1 hk1

/-- After an admission and the recompute that follows it, every block is within capacity
again and a full target block has a member as its cached lowest. -/
theorem admitted_capacity (M : Nat) (ctx : Context) (hw : WeightsKnown ctx) (k1 : Keeper)
    (s : BlockHeight) (sched : TopicId → Option BlockHeight) (reg : TopicId → Bool)
    (h1 : ∀ b, b ≠ s → CapacityAt M k1 b)
    (h2 : ((k1.blockToActiveTopics s).getD []).length ≤ M)
    (hne : (k1.blockToActiveTopics s).getD [] ≠ []) :
    ∀ b, CapacityAt M
      { blockToActiveTopics := k1.blockToActiveTopics
        blockToLowestActiveTopicWeight :=
          mapSet k1.blockToLowestActiveTopicWeight s
            (scannedPair ctx ((k1.blockToActiveTopics s).getD []))
        topicToNextPossibleChurningBlock := sched
        activeTopics := reg } b := by
  intro b
  by_cases hb : b = s
  · subst hb
    exact ⟨h2, fun _ => ⟨_, mapSet_same _ _ _, scannedPair_mem ctx hw _ hne⟩⟩
  · obtain ⟨h3, h4⟩ := h1 b hb
    refine ⟨h3, fun e => ?_⟩
    obtain ⟨p, hp, hm⟩ := h4 e
    exact ⟨p, by simp only [mapSet_other _ _ _ _ hb]; exact hp, hm⟩

theorem applyCall_capacity (M : Nat) (hM1 : 1 ≤ M) (hM2 : M < 2 ^ 31) (k : Keeper)
    (c : Context × Call) (hc : c.1.params.MaxActiveTopicsPerBlock = M ∧ WeightsKnown c.1)
    (h : ∀ b, CapacityAt M k b) : ∀ b, CapacityAt M (applyCall k c) b := by
  obtain ⟨ctx, call⟩ := c
  obtain ⟨hctx, hw⟩ := hc
  simp only at hctx hw
  have hpr : ∀ s b, CapacityAt M
      { blockToActiveTopics := mapRemove k.blockToActiveTopics s
        blockToLowestActiveTopicWeight := mapRemove k.blockToLowestActiveTopicWeight s
        topicToNextPossibleChurningBlock := k.topicToNextPossibleChurningBlock
        activeTopics := k.activeTopics } b := by
    intro s b
    by_cases hb : b = s
    · subst hb
      unfold CapacityAt
      simp only [mapRemove_same, Option.getD_none, List.length_nil]
      exact ⟨Nat.zero_le _, fun e => by omega⟩
    · unfold CapacityAt
      simp only [mapRemove_other _ _ _ hb]
      exact h b
  cases call with
  | activate t =>
    simp only [applyCall, Call.run]
    rcases activate_cases ctx k t with h1 | h1 | ⟨topic, b, k1, _, _, ha, h1⟩
    · rw [h1]; exact h
    · rw [h1]; exact h
    · rw [h1]
      obtain ⟨h2, h3⟩ := add_capacity M hM1 hM2 ctx k k1 t _ hctx h ha
      have hm := add_true_mem ctx k k1 t _ ha
      exact admitted_capacity M ctx hw k1 _ _ _ h2 h3 (by intro e; rw [e] at hm; simp at hm)
  | inactivate t =>
    simp only [applyCall, Call.run, InactivateTopic]
    rcases inactivate_cases ctx k t with ⟨v, hin, _⟩ | ⟨v, hin, _⟩
    · rw [hin]; exact h
    · rw [hin]; exact tornDown_capacity M hM1 k t v h
  | update t =>
    simp only [applyCall, Call.run]
    rcases update_cases ctx k t with h1 | ⟨e, h1⟩ | ⟨topic, k1, _, ha, h1⟩
    · rw [h1]; exact h
    · rw [h1]; exact h
    · rw [h1]
      obtain ⟨h2, h3⟩ := add_capacity M hM1 hM2 ctx k k1 t _ hctx h ha
      have hm := add_true_mem ctx k k1 t _ ha
      exact admitted_capacity M ctx hw k1 _ _ _ h2 h3 (by intro e; rw [e] at hm; simp at hm)
  | prune s => exact hpr s
  | reset s =>
    simp only [applyCall, Call.run]
    by_cases hl : (k.blockToActiveTopics s).getD [] = []
    · rw [reset_empty ctx k s hl]; exact hpr s
    · rw [reset_nonempty ctx k s hl]
      exact admitted_capacity M ctx hw k s _ _ (fun b _ => h b) (h s).1 hl

/-- The capacity holds in every reachable state when every weight lookup succeeds. -/
theorem capacity_kept_when_weights_known (M : Nat) (hM1 : 1 ≤ M) (hM2 : M < 2 ^ 31)
    (calls : List (Context × Call))
    (hcalls : ∀ c ∈ calls, c.1.params.MaxActiveTopicsPerBlock = M ∧ WeightsKnown c.1)
    (s : BlockHeight) :
    ∃ l, GetActiveTopicIdsAtBlock (runCalls Keeper.empty calls) s = .ok l ∧ l.length ≤ M := by
  have := runCalls_induction (fun k => ∀ b, CapacityAt M k b)
    (fun c => c.1.params.MaxActiveTopicsPerBlock = M ∧ WeightsKnown c.1)
    (fun k c hc hk => applyCall_capacity M hM1 hM2 k c hc hk) calls Keeper.empty hcalls
    (by
      intro b
      unfold CapacityAt
      simp only [Keeper.empty, Option.getD_none, List.length_nil]
      exact ⟨Nat.zero_le _, fun e => by omega⟩)
  exact ⟨_, GetActiveTopicIdsAtBlock_eq _ s, (this s).1⟩

/-! ## Facts about the example states -/

theorem fullStep_consistent : Consistent fullStep := by
  intro t
  by_cases h1 : t = 1
  · subst h1; simp [fullStep]
  · by_cases h2 : t = 2
    · subst h2; simp [fullStep]
    · simp [fullStep, h1, h2]

theorem fullStep_scheduledRegistered : ScheduledRegistered (scenarioCtx 90) fullStep := by
  intro t ht
  by_cases h1 : t = 1
  · subst h1; rfl
  · by_cases h2 : t = 2
    · subst h2; rfl
    · simp [fullStep, h1, h2] at ht

theorem scenario_epoch_positive :
    ∀ topic, (scenarioCtx 90).topics 3 = some topic → 0 < topic.EpochLength := by
  intro topic h
  have h2 : topic = ⟨10⟩ := by
    have : (scenarioCtx 90).topics 3 = some ⟨10⟩ := rfl
    rw [this] at h
    injection h with h
    exact h.symm
  subst h2
  decide

/-! ## Relocation and duplicates -/

/-- `UpdateActiveTopic` after a successful admission. -/
theorem update_admitted (ctx : Context) (k k1 : Keeper) (t : TopicId) (topic : Topic)
    (hreg : ctx.topics t = some topic)
    (hadd : addTopicToActiveSetRespectingLimitsWithoutMinWeightReset ctx k t
      (int64 (ctx.blockHeight + topic.EpochLength)) = .ok (true, k1)) :
    UpdateActiveTopic ctx k t = .ok ((),
      { blockToActiveTopics := k1.blockToActiveTopics
        blockToLowestActiveTopicWeight :=
          mapSet k1.blockToLowestActiveTopicWeight (int64 (ctx.blockHeight + topic.EpochLength))
            (scannedPair ctx ((k1.blockToActiveTopics (int64 (ctx.blockHeight + topic.EpochLength))).getD []))
        topicToNextPossibleChurningBlock :=
          mapSet k1.topicToNextPossibleChurningBlock t (int64 (ctx.blockHeight + topic.EpochLength))
        activeTopics := k1.activeTopics }) := by
  have hm := add_true_mem ctx k k1 t _ hadd
  simp only [UpdateActiveTopic, GetTopic, hreg, hadd, Bool.not_true, Bool.false_eq_true,
    if_false]
  rw [reset_nonempty _ _ _ (by intro e; rw [e] at hm; simp at hm)]
  rfl

theorem tornDown_noDuplicates (k : Keeper) (T : TopicId) (b : BlockHeight)
    (h : NoDuplicates k) : NoDuplicates (tornDown k T b) := by
  intro s
  by_cases hs : s = b
  · subst hs
    simp only [tornDown, mapSet_same, Option.getD_some]
    by_cases hT : T ∈ (k.blockToActiveTopics s).getD []
    · simp only [hT, if_true]
      exact (h s).erase T
    · simp only [hT, if_false]
      exact List.nodup_nil
  · have h1 : (tornDown k T b).blockToActiveTopics s = k.blockToActiveTopics s := by
      simp [tornDown, mapSet, hs]
    rw [h1]
    exact h s

theorem add_noDuplicates (ctx : Context) (k k1 : Keeper) (t : TopicId) (s : BlockHeight)
    (r : Bool) (h : NoDuplicates k)
    (hadd : addTopicToActiveSetRespectingLimitsWithoutMinWeightReset ctx k t s = .ok (r, k1)) :
    NoDuplicates k1 := by
  have key : ∀ (k0 : Keeper) (l1 : List TopicId), NoDuplicates k0 → l1.Nodup →
      NoDuplicates { k0 with blockToActiveTopics := mapSet k0.blockToActiveTopics s l1 } := by
    intro k0 l1 h0 hl1 b
    by_cases hb : b = s
    · subst hb; simpa using hl1
    · simp only [mapSet_other _ _ _ _ hb]
      exact h0 b
  rcases add_cases ctx k t s with h1 | h1 | ⟨hmem, _, h1⟩ | ⟨hmem, _, _, v, k0, hin, h1⟩
  · rw [h1] at hadd; injection hadd with hadd
    have := (congrArg Prod.snd hadd).symm; simp only at this; subst this
    exact h
  · rw [h1] at hadd; cases hadd
  · rw [h1] at hadd; injection hadd with hadd
    have := (congrArg Prod.snd hadd).symm; simp only at this; subst this
    refine key k _ h ?_
    rw [List.nodup_append]
    refine ⟨h s, List.nodup_singleton t, ?_⟩
    intro a ha hb
    rw [List.mem_singleton] at hb
    subst hb
    exact hmem ha
  · rw [h1] at hadd; injection hadd with hadd
    have := (congrArg Prod.snd hadd).symm; simp only at this; subst this
    have h0 : NoDuplicates k0 := by
      rcases inactivate_cases ctx k ((k.blockToLowestActiveTopicWeight s).getD ⟨0, 0⟩).TopicId with
        ⟨v2, hin2, _⟩ | ⟨v2, hin2, _⟩
      · rw [hin2] at hin; injection hin with hin
        have := (congrArg Prod.snd hin).symm; simp only at this; subst this
        exact h
      · rw [hin2] at hin; injection hin with hin
        have := (congrArg Prod.snd hin).symm; simp only at this; subst this
        exact tornDown_noDuplicates k _ _ h
    refine key k0 _ h0 ?_
    rw [List.nodup_append]
    refine ⟨(h s).erase _, List.nodup_singleton t, ?_⟩
    intro a ha hb
    rw [List.mem_singleton] at hb
    subst hb
    exact hmem (List.mem_of_mem_erase ha)

theorem applyCall_noDuplicates (k : Keeper) (c : Context × Call) (h : NoDuplicates k) :
    NoDuplicates (applyCall k c) := by
  obtain ⟨ctx, call⟩ := c
  have hpr : ∀ s, NoDuplicates
      { blockToActiveTopics := mapRemove k.blockToActiveTopics s
        blockToLowestActiveTopicWeight := mapRemove k.blockToLowestActiveTopicWeight s
        topicToNextPossibleChurningBlock := k.topicToNextPossibleChurningBlock
        activeTopics := k.activeTopics } := by
    intro s b
    by_cases hb : b = s
    · subst hb; simp
    · simp only [mapRemove_other _ _ _ hb]
      exact h b
  cases call with
  | activate t =>
    simp only [applyCall, Call.run]
    rcases activate_cases ctx k t with h1 | h1 | ⟨topic, b, k1, _, _, ha, h1⟩
    · rw [h1]; exact h
    · rw [h1]; exact h
    · rw [h1]; exact add_noDuplicates ctx k k1 t _ true h ha
  | inactivate t =>
    simp only [applyCall, Call.run, InactivateTopic]
    rcases inactivate_cases ctx k t with ⟨v, hin, _⟩ | ⟨v, hin, _⟩
    · rw [hin]; exact h
    · rw [hin]; exact tornDown_noDuplicates k t v h
  | update t =>
    simp only [applyCall, Call.run]
    rcases update_cases ctx k t with h1 | ⟨e, h1⟩ | ⟨topic, k1, _, ha, h1⟩
    · rw [h1]; exact h
    · rw [h1]; exact h
    · rw [h1]; exact add_noDuplicates ctx k k1 t _ true h ha
  | prune s => exact hpr s
  | reset s =>
    simp only [applyCall, Call.run]
    by_cases hl : (k.blockToActiveTopics s).getD [] = []
    · rw [reset_empty ctx k s hl]; exact hpr s
    · rw [reset_nonempty ctx k s hl]; exact h

/-! ## Blocks are `int64` values -/

theorem int64_of_bounds (x : Int) (h1 : -(2 ^ 63) ≤ x) (h2 : x < 2 ^ 63) : int64 x = x := by
  unfold int64
  have h : (x + 2 ^ 63) % 2 ^ 64 = x + 2 ^ 63 := by
    apply Int.emod_eq_of_lt <;> omega
  omega

/-- Activation and inactivation keep a consistent state consistent when its scheduled topics
are registered and the target block of the activation is not below the current block. -/
theorem consistent_after_call (ctx : Context) (k : Keeper) (T : TopicId)
    (hI : Consistent k) (hR : ScheduledRegistered ctx k)
    (hs : ∀ topic, ctx.topics T = some topic →
      ctx.blockHeight ≤ int64 (ctx.blockHeight + topic.EpochLength)) :
    Consistent (applyCall k (ctx, .activate T)) ∧
      Consistent (applyCall k (ctx, .inactivate T)) := by
  refine ⟨?_, ?_⟩
  · simp only [applyCall, Call.run]
    rcases activate_cases ctx k T with h | h | ⟨topic, b, k1, hreg, hnp, hadd, h⟩
    · rw [h]; exact hI
    · rw [h]; exact hI
    · rw [h]
      obtain ⟨ho, _⟩ := add_keeps_others ctx k k1 T _ hI hR (hs topic hreg) hadd
      have hm := add_true_mem ctx k k1 T _ hadd
      intro t
      by_cases ht : t = T
      · subst ht
        simp only [keySetAdd_same, mapSet_same, Option.isSome_some, true_iff, iff_true]
        exact ⟨trivial, _, rfl, hm⟩
      · obtain ⟨h1, h2⟩ := ho t ht
        simp only [keySetAdd_other _ _ _ ht, mapSet_other _ _ _ _ ht]
        refine ⟨h1, h2, ?_⟩
        rintro ⟨c, hc, _⟩
        rw [hc]; rfl
  · simp only [applyCall, Call.run, InactivateTopic]
    rcases inactivate_cases ctx k T with ⟨v, hin, _⟩ | ⟨v, hin, _, hsch, _⟩
    · rw [hin]; exact hI
    · rw [hin]; exact tornDown_consistent k T v hI hsch

/-- In the scenarios every registered topic has epoch length 10. -/
theorem scenario_topic (height : BlockHeight) (t : TopicId) (topic : Topic)
    (h : (scenarioCtx height).topics t = some topic) : topic = ⟨10⟩ := by
  simp only [scenarioCtx] at h
  split at h
  · injection h with h; exact h.symm
  · cases h

/-- The state of the scenarios after `A` and `B` were activated at block 90 is consistent. -/
theorem scenario_consistent :
    Consistent (runCalls Keeper.empty
      [(scenarioCtx 90, .activate 1), (scenarioCtx 90, .activate 2)]) := by
  have hs : ∀ (t : TopicId) (topic : Topic), (scenarioCtx 90).topics t = some topic →
      (scenarioCtx 90).blockHeight ≤ int64 ((scenarioCtx 90).blockHeight + topic.EpochLength) := by
    intro t topic h
    rw [scenario_topic 90 t topic h]
    decide
  have h0 : Consistent Keeper.empty := by
    intro t; simp [Keeper.empty]
  have hR0 : ScheduledRegistered (scenarioCtx 90) Keeper.empty := by
    intro t ht; simp [Keeper.empty] at ht
  have h1 := (consistent_after_call (scenarioCtx 90) Keeper.empty 1 h0 hR0 (hs 1)).1
  have hR1 : ScheduledRegistered (scenarioCtx 90)
      (applyCall Keeper.empty (scenarioCtx 90, .activate 1)) :=
    scheduledRegistered_reachable (scenarioCtx 90) [(scenarioCtx 90, .activate 1)]
      (by intro c hc; simp at hc; subst hc; rfl)
  exact (consistent_after_call (scenarioCtx 90) _ 2 h1 hR1 (hs 2)).1

/-! ## The claims of the specification -/

/-- Claim C1, which the code breaks: the capacity of a block is exceeded after a recompute
found no weight.  With room for one active topic per block, topics 1 and 2 registered with
epoch length 10, and a weight provider that fails for topic 1 and answers 5 for topic 2,
`ActivateTopic(1)` then `ActivateTopic(2)`, both at block 0, leave the two topics `[1, 2]` in
the active list of block 10.  The recompute after the first call caches the pair `(0, 0)`,
which names no member of the list; the second admission therefore tears down nobody, strips
nothing from the list, and appends. -/
theorem capacity_exceeded_after_failed_weight_lookup :
    unweighedCtx.params.MaxActiveTopicsPerBlock = 1 ∧
    heightsNonDecreasing [(unweighedCtx, .activate 1), (unweighedCtx, .activate 2)] ∧
    (runCalls Keeper.empty [(unweighedCtx, .activate 1)]).blockToActiveTopics 10 = some [1] ∧
    (runCalls Keeper.empty [(unweighedCtx, .activate 1)]).blockToLowestActiveTopicWeight 10 =
      some ⟨0, 0⟩ ∧
    GetActiveTopicIdsAtBlock
        (runCalls Keeper.empty [(unweighedCtx, .activate 1), (unweighedCtx, .activate 2)]) 10 =
      .ok [1, 2] :=
  ⟨rfl, ⟨le_refl _, trivial⟩, rfl, rfl, rfl⟩

/-- The eviction scenario evaluated: the list becomes `[A, C]` and the cache `(C, 4)`. -/
theorem eviction_scenario_evaluated :
    (applyCall fullStep (scenarioCtx 90, .activate 3)).blockToActiveTopics 100 = some [1, 3] ∧
    (applyCall fullStep (scenarioCtx 90, .activate 3)).blockToLowestActiveTopicWeight 100 =
      some ⟨4, 3⟩ :=
  ⟨rfl, rfl⟩

/-- Claim C3: a rejection changes nothing.  The list at `s` has at least
`MaxActiveTopicsPerBlock` entries (its length within the `int32` range the code compares in),
`D` is a registered topic with no pending churn, not in the list, with
`currentBlock + epochLength = s` (the `int64` sum the code forms), and its weight is strictly
below the weight of the cached
lowest pair of `s` (as `GetLowestActiveTopicWeightAtBlock` returns it).  Then
`ActivateTopic(D)` returns no error and the stores after the call are the stores before it, so
that `D` still has no pending churn. -/
theorem activate_rejected_changes_nothing (ctx : Context) (k : Keeper) (D : TopicId)
    (topic : Topic) (b s : BlockHeight) (l : List TopicId) (lowest : TopicIdWeightPair)
    (missing : Bool) (w : Dec)
    (hreg : ctx.topics D = some topic)
    (hnp : GetNextPossibleChurningBlockByTopicId ctx k D = .ok (b, false))
    (hs : int64 (ctx.blockHeight + topic.EpochLength) = s)
    (hl : GetActiveTopicIdsAtBlock k s = .ok l)
    (hfull : ctx.params.MaxActiveTopicsPerBlock ≤ l.length)
    (hrange : l.length < 2 ^ 31)
    (hD : D ∉ l)
    (hlow : GetLowestActiveTopicWeightAtBlock k s = .ok (lowest, missing))
    (hw : ctx.topicWeight D = some w)
    (hlt : w < lowest.Weight) :
    ∃ k1, ActivateTopic ctx k D = .ok ((), k1) ∧ k1 = k ∧
      GetNextPossibleChurningBlockByTopicId ctx k1 D = .ok (b, false) := by
  refine ⟨k, ?_, rfl, hnp⟩
  have hl2 := getD_of_get k s l hl
  have hcap : int32 ctx.params.MaxActiveTopicsPerBlock ≤ int32 ((k.blockToActiveTopics s).getD []).length := by
    rw [hl2, int32_of_small _ hrange, int32_of_small _ (lt_of_le_of_lt hfull hrange)]
    exact_mod_cast hfull
  have hlow2 : (k.blockToLowestActiveTopicWeight s).getD ⟨0, 0⟩ = lowest := by
    rw [GetLowestActiveTopicWeightAtBlock_eq] at hlow
    injection hlow with h
    exact congrArg Prod.fst h
  rw [activate_unguarded ctx k D topic b hreg hnp, hs,
    add_full_reject ctx k D s w (by rw [hl2]; exact hD) hcap hw (by rw [hlow2]; exact hlt)]
  rfl

/-- Witness of claim C3: the full block 100 with cache `(B, 3)` and `D` of weight 1. -/
theorem activate_rejected_changes_nothing_witness :
    ∃ k1, ActivateTopic (scenarioCtx 90) fullStep 4 = .ok ((), k1) ∧ k1 = fullStep ∧
      GetNextPossibleChurningBlockByTopicId (scenarioCtx 90) k1 4 = .ok (0, false) :=
  activate_rejected_changes_nothing (scenarioCtx 90) fullStep 4 ⟨10⟩ 0 100 [1, 2] ⟨3, 2⟩ false 1
    rfl rfl rfl rfl (by decide) (by decide) (by decide) rfl rfl (by decide)

/-- Claim C4: the tie-break favours the newcomer.  In the admission at a full block (list
length at least `MaxActiveTopicsPerBlock` and within the `int32` range, candidate not in the
list, weight lookup successful) the candidate is rejected exactly when its weight is strictly
below the weight of the cached lowest pair, the stores staying as they were; in every other
case, a tie included, it is admitted and stands in the list of the block afterwards. -/
theorem admission_rejects_iff_strictly_lighter (ctx : Context) (k : Keeper) (t : TopicId)
    (s : BlockHeight) (l : List TopicId) (w : Dec) (lowest : TopicIdWeightPair) (missing : Bool)
    (hl : GetActiveTopicIdsAtBlock k s = .ok l)
    (hfull : ctx.params.MaxActiveTopicsPerBlock ≤ l.length)
    (hrange : l.length < 2 ^ 31)
    (ht : t ∉ l)
    (hw : GetTopicWeightFromTopicId ctx t = .ok w)
    (hlow : GetLowestActiveTopicWeightAtBlock k s = .ok (lowest, missing)) :
    ((∃ k1, addTopicToActiveSetRespectingLimitsWithoutMinWeightReset ctx k t s = .ok (false, k1)) ↔
        w < lowest.Weight) ∧
      (w < lowest.Weight →
        addTopicToActiveSetRespectingLimitsWithoutMinWeightReset ctx k t s = .ok (false, k)) ∧
      (lowest.Weight ≤ w →
        ∃ k1 l1, addTopicToActiveSetRespectingLimitsWithoutMinWeightReset ctx k t s = .ok (true, k1) ∧
          GetActiveTopicIdsAtBlock k1 s = .ok l1 ∧ t ∈ l1) := by
  have hl2 := getD_of_get k s l hl
  have hcap : int32 ctx.params.MaxActiveTopicsPerBlock ≤ int32 ((k.blockToActiveTopics s).getD []).length := by
    rw [hl2, int32_of_small _ hrange, int32_of_small _ (lt_of_le_of_lt hfull hrange)]
    exact_mod_cast hfull
  have hw2 : ctx.topicWeight t = some w := by
    unfold GetTopicWeightFromTopicId at hw
    cases h : ctx.topicWeight t with
    | none => rw [h] at hw; cases hw
    | some v => rw [h] at hw; injection hw with hv; rw [hv]
  have hlow2 : (k.blockToLowestActiveTopicWeight s).getD ⟨0, 0⟩ = lowest := by
    rw [GetLowestActiveTopicWeightAtBlock_eq] at hlow
    injection hlow with h
    exact congrArg Prod.fst h
  have hnot : t ∉ (k.blockToActiveTopics s).getD [] := by rw [hl2]; exact ht
  have hrej : w < lowest.Weight →
      addTopicToActiveSetRespectingLimitsWithoutMinWeightReset ctx k t s = .ok (false, k) :=
    fun hlt => add_full_reject ctx k t s w hnot hcap hw2 (by rw [hlow2]; exact hlt)
  have hadm : lowest.Weight ≤ w →
      ∃ k1 l1, addTopicToActiveSetRespectingLimitsWithoutMinWeightReset ctx k t s = .ok (true, k1) ∧
        GetActiveTopicIdsAtBlock k1 s = .ok l1 ∧ t ∈ l1 := by
    intro hge
    obtain ⟨v, k1, hin⟩ : ∃ v k1,
        inactivateTopicWithoutMinWeightReset ctx k lowest.TopicId = .ok (v, k1) := by
      rcases inactivate_cases ctx k lowest.TopicId with ⟨v, hin, _⟩ | ⟨v, hin, _⟩
      · exact ⟨v, _, hin⟩
      · exact ⟨v, _, hin⟩
    have hadd := add_full_evict ctx k k1 t s v w hnot hcap hw2 (by rw [hlow2]; exact hge)
      (by rw [hlow2]; exact hin)
    rw [hl2, hlow2] at hadd
    refine ⟨_, l.erase lowest.TopicId ++ [t], hadd, ?_, by simp⟩
    simp [GetActiveTopicIdsAtBlock_eq]
  refine ⟨⟨?_, fun hlt => ⟨k, hrej hlt⟩⟩, hrej, hadm⟩
  rintro ⟨k1, hk1⟩
  by_contra hge
  obtain ⟨k2, l2, h2, _⟩ := hadm (not_lt.mp hge)
  rw [h2] at hk1
  injection hk1 with h3
  have := congrArg Prod.fst h3
  simp at this

/-- Witness of claim C4: `C` of weight 4 against the cached `(B, 3)` at the full block 100. -/
theorem admission_rejects_iff_strictly_lighter_witness :
    ((∃ k1, addTopicToActiveSetRespectingLimitsWithoutMinWeightReset (scenarioCtx 90) fullStep
        3 100 = .ok (false, k1)) ↔ (4 : Dec) < (⟨3, 2⟩ : TopicIdWeightPair).Weight) ∧
      ∃ k1 l1, addTopicToActiveSetRespectingLimitsWithoutMinWeightReset (scenarioCtx 90) fullStep
          3 100 = .ok (true, k1) ∧
        GetActiveTopicIdsAtBlock k1 100 = .ok l1 ∧ 3 ∈ l1 :=
  ⟨(admission_rejects_iff_strictly_lighter (scenarioCtx 90) fullStep 3 100 [1, 2] 4 ⟨3, 2⟩ false
      rfl (by decide) (by decide) (by decide) rfl rfl).1,
    (admission_rejects_iff_strictly_lighter (scenarioCtx 90) fullStep 3 100 [1, 2] 4 ⟨3, 2⟩ false
      rfl (by decide) (by decide) (by decide) rfl rfl).2.2 (by decide)⟩

/-- A tie is admitted: with the cached lowest `(A, 5)` at the one-slot block 110, a second
topic of weight 5 takes the slot. -/
theorem tie_admitted_evaluated :
    (applyCall stepA (tieCtx, .activate 2)).blockToActiveTopics 110 = some [2] :=
  rfl

/-- Counterexample to claim C5 as stated, on two inputs.  First, with the capacity
`2 ^ 32 + 1`, which the code reads through `int32` as 1: after `ActivateTopic(3)` at block 100
the list of block 110 is `[3]`, fewer entries than the capacity, and topic 1 (registered, no
pending churn, epoch length 10, not in the list) is lighter than topic 3; `ActivateTopic(1)`
finds the block full, rejects topic 1 and changes nothing.  Second, at block `2 ^ 63 - 8` with
epoch length 10 and empty stores: the `int64` sum wraps to `-(2 ^ 63) + 2`, so after
`ActivateTopic(1)` the query returns that block with `isPending = false`, and the list of the
block `2 ^ 63 + 2` of the claim is still empty. -/
theorem activate_round_trip_out_of_range :
    ((wideCtx 100).topics 1 = some ⟨10⟩ ∧
      GetNextPossibleChurningBlockByTopicId (wideCtx 100)
        (runCalls Keeper.empty [(wideCtx 100, .activate 3)]) 1 = .ok (RESERVED_BLOCK, false) ∧
      GetActiveTopicIdsAtBlock (runCalls Keeper.empty [(wideCtx 100, .activate 3)])
        ((wideCtx 100).blockHeight + 10) = .ok [3] ∧
      1 ∉ [3] ∧ [3].length < (wideCtx 100).params.MaxActiveTopicsPerBlock ∧
      ActivateTopic (wideCtx 100) (runCalls Keeper.empty [(wideCtx 100, .activate 3)]) 1 =
        .ok ((), runCalls Keeper.empty [(wideCtx 100, .activate 3)]) ∧
      (runCalls Keeper.empty [(wideCtx 100, .activate 3)]).activeTopics 1 = false) ∧
    ((lateCtx (2 ^ 63 - 8)).topics 1 = some ⟨10⟩ ∧
      GetNextPossibleChurningBlockByTopicId (lateCtx (2 ^ 63 - 8)) Keeper.empty 1 =
        .ok (RESERVED_BLOCK, false) ∧
      GetActiveTopicIdsAtBlock Keeper.empty ((lateCtx (2 ^ 63 - 8)).blockHeight + 10) = .ok [] ∧
      ([] : List TopicId).length < (lateCtx (2 ^ 63 - 8)).params.MaxActiveTopicsPerBlock ∧
      (lateCtx (2 ^ 63 - 8)).blockHeight + 10 = 2 ^ 63 + 2 ∧
      GetNextPossibleChurningBlockByTopicId (lateCtx (2 ^ 63 - 8))
        (applyCall Keeper.empty (lateCtx (2 ^ 63 - 8), .activate 1)) 1 =
        .ok (-(2 ^ 63) + 2, false) ∧
      GetActiveTopicIdsAtBlock (applyCall Keeper.empty (lateCtx (2 ^ 63 - 8), .activate 1))
        (2 ^ 63 + 2) = .ok []) :=
  ⟨⟨rfl, rfl, rfl, by decide, by decide, rfl, rfl⟩,
    ⟨rfl, rfl, rfl, by decide, by decide, rfl, rfl⟩⟩

/-- Claim C5, amended: activation round trip within the ranges of the code.  For a registered
topic `T` with no pending churn and epoch length `e > 0`, at current block `c`, where `c + e`
does not overflow `int64`, the list at `c + e` does not contain `T` and has fewer than
`MaxActiveTopicsPerBlock` entries, and `MaxActiveTopicsPerBlock` is below `2 ^ 31`,
`ActivateTopic(T)` succeeds and afterwards `GetNextPossibleChurningBlockByTopicId(T)` returns
`(c + e, true)`, `GetActiveTopicIdsAtBlock(c + e)` is the former list with `T` appended, and `T`
is in the active registry. -/
theorem activate_round_trip (ctx : Context) (k : Keeper) (T : TopicId) (topic : Topic)
    (l : List TopicId) (b : BlockHeight)
    (hreg : ctx.topics T = some topic)
    (hnp : GetNextPossibleChurningBlockByTopicId ctx k T = .ok (b, false))
    (he : 0 < topic.EpochLength)
    (hsum : int64 (ctx.blockHeight + topic.EpochLength) = ctx.blockHeight + topic.EpochLength)
    (hl : GetActiveTopicIdsAtBlock k (ctx.blockHeight + topic.EpochLength) = .ok l)
    (hT : T ∉ l)
    (hlen : l.length < ctx.params.MaxActiveTopicsPerBlock)
    (hrange : ctx.params.MaxActiveTopicsPerBlock < 2 ^ 31) :
    ∃ k1, ActivateTopic ctx k T = .ok ((), k1) ∧
      GetNextPossibleChurningBlockByTopicId ctx k1 T =
        .ok (ctx.blockHeight + topic.EpochLength, true) ∧
      GetActiveTopicIdsAtBlock k1 (ctx.blockHeight + topic.EpochLength) = .ok (l ++ [T]) ∧
      k1.activeTopics T = true := by
  rw [GetActiveTopicIdsAtBlock_eq] at hl
  have hl2 : (k.blockToActiveTopics (ctx.blockHeight + topic.EpochLength)).getD [] = l := by
    injection hl
  have hcap : int32 ((k.blockToActiveTopics (ctx.blockHeight + topic.EpochLength)).getD []).length
      < int32 ctx.params.MaxActiveTopicsPerBlock := by
    rw [hl2, int32_of_small _ hrange, int32_of_small _ (lt_trans hlen hrange)]
    exact_mod_cast hlen
  have hadd := add_free ctx k T _ (by rw [hl2]; exact hT) hcap
  rw [← hsum] at hadd
  rw [activate_admitted ctx k _ T topic b hreg hnp hadd, hsum]
  refine ⟨_, rfl, ?_, ?_, ?_⟩
  · simp [GetNextPossibleChurningBlockByTopicId]
    exact le_of_lt he
  · simp [GetActiveTopicIdsAtBlock_eq, hl2]
  · simp

/-- Witness of claim C5 (amended): epoch length 10 at block 100 gives `(110, true)` and `T` in
the list of block 110. -/
theorem activate_round_trip_witness :
    ∃ k1, ActivateTopic (scenarioCtx 100) Keeper.empty 1 = .ok ((), k1) ∧
      GetNextPossibleChurningBlockByTopicId (scenarioCtx 100) k1 1 =
        .ok ((scenarioCtx 100).blockHeight + (⟨10⟩ : Topic).EpochLength, true) ∧
      GetActiveTopicIdsAtBlock k1 ((scenarioCtx 100).blockHeight + (⟨10⟩ : Topic).EpochLength) =
        .ok ([] ++ [1]) ∧
      k1.activeTopics 1 = true :=
  activate_round_trip (scenarioCtx 100) Keeper.empty 1 ⟨10⟩ [] 0 rfl rfl (by decide) (by decide)
    rfl (by decide) (by decide) (by decide)

/-- Claim C6: removal.  For a registered topic `A` with a pending churn at `s` and standing in
the list of `s`, `InactivateTopic(A)` succeeds and afterwards the list at `s` is the old one
with the first occurrence of `A` removed, `GetNextPossibleChurningBlockByTopicId(A)` reports
no pending churn, `A` is out of the active registry, and the lowest-weight cache is the same at
every block, `s` included. -/
theorem inactivate_removes_member (ctx : Context) (k : Keeper) (A : TopicId) (topic : Topic)
    (s : BlockHeight) (l : List TopicId)
    (hreg : ctx.topics A = some topic)
    (hp : GetNextPossibleChurningBlockByTopicId ctx k A = .ok (s, true))
    (hl : GetActiveTopicIdsAtBlock k s = .ok l)
    (hA : A ∈ l) :
    ∃ k1, InactivateTopic ctx k A = .ok ((), k1) ∧
      GetActiveTopicIdsAtBlock k1 s = .ok (l.erase A) ∧
      GetNextPossibleChurningBlockByTopicId ctx k1 A = .ok (RESERVED_BLOCK, false) ∧
      k1.activeTopics A = false ∧
      k1.blockToLowestActiveTopicWeight = k.blockToLowestActiveTopicWeight := by
  obtain ⟨hs, hb⟩ := pending_cases ctx k A s hp
  have hl2 := getD_of_get k s l hl
  refine ⟨tornDown k A s, ?_, ?_, ?_, ?_, rfl⟩
  · unfold InactivateTopic
    rw [inactivate_pending ctx k A s (by simp [hreg]) hs hb]
  · simp [GetActiveTopicIdsAtBlock_eq, tornDown, hl2, hA]
  · simp [GetNextPossibleChurningBlockByTopicId, tornDown]
  · simp [tornDown]

/-- Witness of claim C6: the list `[A, C]` of block 110 becomes `[C]` and the cache of block
110 keeps its value. -/
theorem inactivate_removes_member_witness :
    ∃ k1, InactivateTopic (scenarioCtx 100) stepAC 1 = .ok ((), k1) ∧
      GetActiveTopicIdsAtBlock k1 110 = .ok ([1, 3].erase 1) ∧
      GetNextPossibleChurningBlockByTopicId (scenarioCtx 100) k1 1 = .ok (RESERVED_BLOCK, false) ∧
      k1.activeTopics 1 = false ∧
      k1.blockToLowestActiveTopicWeight = stepAC.blockToLowestActiveTopicWeight :=
  inactivate_removes_member (scenarioCtx 100) stepAC 1 ⟨10⟩ 110 [1, 3] rfl rfl rfl (by decide)

/-- Claim C7: minimum recompute.  When the list at `s` is not empty and the weight lookup
succeeds for at least one member, `ResetLowestActiveTopicWeightAtBlock(s)` returns no error,
changes nothing but the cached pair of `s`, and that pair is the first minimum of the list:
its topic is a member with that weight, every member before it with a known weight is strictly
heavier, every member after it with a known weight is at least as heavy; members whose lookup
fails are passed over. -/
theorem reset_stores_first_lowest (ctx : Context) (k : Keeper) (s : BlockHeight)
    (l : List TopicId)
    (hl : GetActiveTopicIdsAtBlock k s = .ok l)
    (hne : l ≠ [])
    (hw : ∃ u ∈ l, (ctx.topicWeight u).isSome = true) :
    ∃ p, ResetLowestActiveTopicWeightAtBlock ctx k s =
        .ok ((), { k with
          blockToLowestActiveTopicWeight := mapSet k.blockToLowestActiveTopicWeight s p }) ∧
      IsFirstLowest ctx l p := by
  have hl2 := getD_of_get k s l hl
  rw [reset_nonempty ctx k s (by rw [hl2]; exact hne), hl2]
  rcases lowestScan_initial ctx l 0 0 with ⟨_, h2⟩ | ⟨p, h1, h2⟩
  · obtain ⟨u, hu, huw⟩ := hw
    rw [h2 u hu] at huw
    cases huw
  · exact ⟨p, by rw [h1], h2⟩

/-- Witness of claim C7: the recompute over `[A(5), B(3)]` at block 100. -/
theorem reset_stores_first_lowest_witness :
    ∃ p, ResetLowestActiveTopicWeightAtBlock (scenarioCtx 90) fullStep 100 =
        .ok ((), { fullStep with
          blockToLowestActiveTopicWeight :=
            mapSet fullStep.blockToLowestActiveTopicWeight 100 p }) ∧
      IsFirstLowest (scenarioCtx 90) [1, 2] p :=
  reset_stores_first_lowest (scenarioCtx 90) fullStep 100 [1, 2] rfl (by decide)
    ⟨1, by decide, rfl⟩

/-- Counterexample to claim C8 as stated: topic 1 (epoch length 10) is activated at block 0 and
`InactivateTopic(1)` is called at block 11.  Its churn at block 10 is no longer pending, so the
teardown is skipped and topic 1 stays in the active registry although
`GetNextPossibleChurningBlockByTopicId` reports `isPending = false` at the current block. -/
theorem registry_outlives_pending_churn :
    heightsNonDecreasing [(soloCtx 0, .activate 1), (soloCtx 11, .inactivate 1)] ∧
    (runCalls Keeper.empty [(soloCtx 0, .activate 1), (soloCtx 11, .inactivate 1)]).activeTopics 1 =
      true ∧
    GetNextPossibleChurningBlockByTopicId (soloCtx 11)
        (runCalls Keeper.empty [(soloCtx 0, .activate 1), (soloCtx 11, .inactivate 1)]) 1 =
      .ok (10, false) :=
  ⟨⟨by decide, trivial⟩, rfl, rfl⟩

/-- Claim C8, amended: in every state reached from empty stores by keeper calls, each made in
a context of its own, every topic of the active registry has a churn-schedule entry; and when
no `UpdateActiveTopic` is among the calls, a topic is in the active registry exactly when it has
a churn-schedule entry, so that every topic `GetNextPossibleChurningBlockByTopicId` reports
pending, at whatever block, is in the active registry. -/
theorem registry_follows_schedule (calls : List (Context × Call)) :
    (∀ t, (runCalls Keeper.empty calls).activeTopics t = true →
      ∃ b, (runCalls Keeper.empty calls).topicToNextPossibleChurningBlock t = some b) ∧
    ((∀ c ∈ calls, c.2.isUpdate = false) →
      (∀ t, (runCalls Keeper.empty calls).activeTopics t = true ↔
        ∃ b, (runCalls Keeper.empty calls).topicToNextPossibleChurningBlock t = some b) ∧
      ∀ (ctx : Context) (t : TopicId) (b : BlockHeight),
        GetNextPossibleChurningBlockByTopicId ctx (runCalls Keeper.empty calls) t = .ok (b, true) →
        (runCalls Keeper.empty calls).activeTopics t = true) := by
  have hfirst := runCalls_induction RegistryScheduled (fun _ => True)
    (fun k c _ hk => applyCall_registryScheduled k c hk) calls Keeper.empty
    (fun _ _ => trivial) (by intro u hu; simp [Keeper.empty] at hu)
  refine ⟨fun t ht => Option.isSome_iff_exists.mp (hfirst t ht), ?_⟩
  intro hno
  have hsecond := runCalls_induction ScheduledInRegistry (fun c => c.2.isUpdate = false)
    (fun k c hc hk => applyCall_scheduledInRegistry k c hc hk) calls Keeper.empty
    hno (by intro u hu; simp [Keeper.empty] at hu)
  refine ⟨fun t => ⟨fun ht => Option.isSome_iff_exists.mp (hfirst t ht), ?_⟩, ?_⟩
  · rintro ⟨b, hb⟩
    exact hsecond t (by rw [hb]; rfl)
  · intro ctx t b hp
    obtain ⟨hs, _⟩ := pending_cases ctx _ t b hp
    exact hsecond t (by rw [hs]; rfl)

/-- Witness of claim C8 (amended): after `ActivateTopic(1)` at block 0, topic 1 is pending, is
in the registry and has a churn-schedule entry. -/
theorem registry_follows_schedule_witness :
    (runCalls Keeper.empty [(soloCtx 0, .activate 1)]).activeTopics 1 = true ∧
    ∃ b, (runCalls Keeper.empty [(soloCtx 0, .activate 1)]).topicToNextPossibleChurningBlock 1 =
      some b :=
  ⟨((registry_follows_schedule [(soloCtx 0, .activate 1)]).2
      (by intro c hc; simp at hc; subst hc; rfl)).2 (soloCtx 0) 1 10 rfl,
    (registry_follows_schedule [(soloCtx 0, .activate 1)]).1 1 rfl⟩

/-- Counterexample to claim C9 as stated: at block 100, with one slot per block and topics 1
and 2 of epoch length `2 ^ 63 - 1` and equal weight, `ActivateTopic(1)` from empty stores gives
a state that satisfies the three-way equivalence; the `int64` sum has wrapped, so topic 1 is
scheduled at block `-(2 ^ 63) + 99`, below the current block.  `ActivateTopic(2)` targets the
same block, finds it full, skips the teardown of topic 1, whose churn is not pending, and still
strips it from the list: topic 1 keeps its churn-schedule and registry entries but the list of
its block is `[2]`. -/
theorem consistency_lost_on_overflow :
    Consistent (runCalls Keeper.empty [(farCtx, .activate 1)]) ∧
    (∃ topic, farCtx.topics 2 = some topic ∧ 0 < topic.EpochLength) ∧
    (runCalls Keeper.empty [(farCtx, .activate 1), (farCtx, .activate 2)]).activeTopics 1 = true ∧
    (runCalls Keeper.empty
      [(farCtx, .activate 1), (farCtx, .activate 2)]).topicToNextPossibleChurningBlock 1 =
        some (-(2 ^ 63) + 99) ∧
    (runCalls Keeper.empty
      [(farCtx, .activate 1), (farCtx, .activate 2)]).blockToActiveTopics (-(2 ^ 63) + 99) =
        some [2] ∧
    ¬ Consistent (applyCall (runCalls Keeper.empty [(farCtx, .activate 1)])
      (farCtx, .activate 2)) := by
  have h1 : (runCalls Keeper.empty [(farCtx, .activate 1)]).activeTopics =
      keySetAdd (fun _ => false) 1 := rfl
  have h2 : (runCalls Keeper.empty [(farCtx, .activate 1)]).topicToNextPossibleChurningBlock =
      mapSet (fun _ => none) 1 (-(2 ^ 63) + 99) := rfl
  have h3 : (runCalls Keeper.empty [(farCtx, .activate 1)]).blockToActiveTopics =
      mapSet (fun _ => none) (-(2 ^ 63) + 99) [1] := rfl
  refine ⟨?_, ?_, rfl, rfl, rfl, ?_⟩
  · intro t
    rw [h1, h2, h3]
    by_cases ht : t = 1
    · subst ht; simp
    · simp [keySetAdd, mapSet, ht]
  · exact ⟨⟨2 ^ 63 - 1⟩, rfl, by decide⟩
  · intro h
    obtain ⟨b, hb, hm⟩ := (h 1).2.mp rfl
    have hb2 : (applyCall (runCalls Keeper.empty [(farCtx, .activate 1)])
        (farCtx, .activate 2)).topicToNextPossibleChurningBlock 1 = some (-(2 ^ 63) + 99) := rfl
    rw [hb2] at hb
    injection hb with hb
    subst hb
    have hl : ((applyCall (runCalls Keeper.empty [(farCtx, .activate 1)])
        (farCtx, .activate 2)).blockToActiveTopics (-(2 ^ 63) + 99)).getD [] = [2] := rfl
    rw [hl] at hm
    simp at hm

/-- Claim C9, amended: the global consistency is preserved by activation and inactivation when
the target block does not overflow.  If a state reached from empty stores by keeper calls that
see the topic registry of the present call satisfies, for every topic ID, that being in the
active registry, having a churn-schedule entry, and standing in the list of the scheduled block
are equivalent, then so do the state after `ActivateTopic(T)` and the state after
`InactivateTopic(T)`, for every `T` whose epoch length is positive and whose sum
`currentBlock + epochLength` does not overflow `int64`, also when the activation evicts another
topic. -/
theorem consistency_preserved (ctx : Context) (calls : List (Context × Call)) (k : Keeper)
    (T : TopicId)
    (hk : k = runCalls Keeper.empty calls)
    (hcalls : ∀ c ∈ calls, c.1.topics = ctx.topics)
    (hI : Consistent k)
    (he : ∀ topic, ctx.topics T = some topic → 0 < topic.EpochLength ∧
      int64 (ctx.blockHeight + topic.EpochLength) = ctx.blockHeight + topic.EpochLength) :
    Consistent (applyCall k (ctx, .activate T)) ∧
      Consistent (applyCall k (ctx, .inactivate T)) := by
  subst hk
  refine consistent_after_call ctx _ T hI (scheduledRegistered_reachable ctx calls hcalls) ?_
  intro topic hreg
  obtain ⟨hpos, hsum⟩ := he topic hreg
  rw [hsum]
  exact le_add_of_nonneg_right (le_of_lt hpos)

/-- Witness of claim C9 (amended): the full block 100 of the scenarios, reached by activating
`A` and `B` at block 90, where activating `C` evicts `B`. -/
theorem consistency_preserved_witness :
    Consistent (applyCall
        (runCalls Keeper.empty [(scenarioCtx 90, .activate 1), (scenarioCtx 90, .activate 2)])
        (scenarioCtx 90, .activate 3)) ∧
      Consistent (applyCall
        (runCalls Keeper.empty [(scenarioCtx 90, .activate 1), (scenarioCtx 90, .activate 2)])
        (scenarioCtx 90, .inactivate 3)) :=
  consistency_preserved (scenarioCtx 90)
    [(scenarioCtx 90, .activate 1), (scenarioCtx 90, .activate 2)] _ 3 rfl
    (by intro c hc; simp at hc; rcases hc with rfl | rfl <;> rfl)
    scenario_consistent
    (by
      intro topic h
      rw [scenario_topic 90 3 topic h]
      exact ⟨by decide, by decide⟩)

/-- Claim C10: emptying.  When the list at `s` is absent or empty,
`ResetLowestActiveTopicWeightAtBlock(s)` removes the list entry and the lowest-weight entry of
`s`, so that `GetLowestActiveTopicWeightAtBlock(s)` then answers `missing = true` with no
error; whereas `InactivateTopic` never touches the lowest-weight store, and on the only member
of the list at `s` (registered, its churn pending at `s`) it empties the list and leaves the
lowest-weight entry of `s` in place (`missing = false`) until that reset is called. -/
theorem reset_prunes_only_when_called (ctx : Context) (s : BlockHeight) :
    (∀ k : Keeper, GetActiveTopicIdsAtBlock k s = .ok [] →
      ∃ k1, ResetLowestActiveTopicWeightAtBlock ctx k s = .ok ((), k1) ∧
        k1.blockToActiveTopics s = none ∧ k1.blockToLowestActiveTopicWeight s = none ∧
        GetLowestActiveTopicWeightAtBlock k1 s = .ok (⟨0, 0⟩, true)) ∧
    (∀ (k : Keeper) (A : TopicId),
      ∃ k1, InactivateTopic ctx k A = .ok ((), k1) ∧
        k1.blockToLowestActiveTopicWeight = k.blockToLowestActiveTopicWeight) ∧
    (∀ (k : Keeper) (A : TopicId) (p : TopicIdWeightPair),
      (ctx.topics A).isSome = true →
      GetNextPossibleChurningBlockByTopicId ctx k A = .ok (s, true) →
      GetActiveTopicIdsAtBlock k s = .ok [A] →
      k.blockToLowestActiveTopicWeight s = some p →
      ∃ k1, InactivateTopic ctx k A = .ok ((), k1) ∧
        GetActiveTopicIdsAtBlock k1 s = .ok [] ∧
        GetLowestActiveTopicWeightAtBlock k1 s = .ok (p, false) ∧
        ∃ k2, ResetLowestActiveTopicWeightAtBlock ctx k1 s = .ok ((), k2) ∧
          GetLowestActiveTopicWeightAtBlock k2 s = .ok (⟨0, 0⟩, true)) := by
  have hfirst : ∀ k : Keeper, GetActiveTopicIdsAtBlock k s = .ok [] →
      ∃ k1, ResetLowestActiveTopicWeightAtBlock ctx k s = .ok ((), k1) ∧
        k1.blockToActiveTopics s = none ∧ k1.blockToLowestActiveTopicWeight s = none ∧
        GetLowestActiveTopicWeightAtBlock k1 s = .ok (⟨0, 0⟩, true) := by
    intro k hk
    rw [reset_empty ctx k s (getD_of_get k s [] hk)]
    refine ⟨_, rfl, ?_, ?_, ?_⟩ <;> simp [GetLowestActiveTopicWeightAtBlock]
  refine ⟨hfirst, ?_, ?_⟩
  · intro k A
    unfold InactivateTopic
    rcases inactivate_cases ctx k A with ⟨v, hin, _⟩ | ⟨v, hin, _⟩
    · rw [hin]; exact ⟨k, rfl, rfl⟩
    · rw [hin]; exact ⟨_, rfl, rfl⟩
  · intro k A p hreg hp hl hc
    obtain ⟨hs, hb⟩ := pending_cases ctx k A s hp
    have hl2 := getD_of_get k s [A] hl
    have hempty : GetActiveTopicIdsAtBlock (tornDown k A s) s = .ok [] := by
      simp [GetActiveTopicIdsAtBlock_eq, tornDown, hl2]
    refine ⟨tornDown k A s, ?_, hempty, ?_, ?_⟩
    · unfold InactivateTopic
      rw [inactivate_pending ctx k A s hreg hs hb]
    · simp [GetLowestActiveTopicWeightAtBlock, tornDown, hc]
    · obtain ⟨k2, h1, _, _, h4⟩ := hfirst (tornDown k A s) hempty
      exact ⟨k2, h1, h4⟩

/-- Witness of claim C10: block 110 holding `A` alone with cache `(A, 5)`. -/
theorem reset_prunes_only_when_called_witness :
    (∃ k1, ResetLowestActiveTopicWeightAtBlock (scenarioCtx 100) Keeper.empty 110 = .ok ((), k1) ∧
        k1.blockToActiveTopics 110 = none ∧ k1.blockToLowestActiveTopicWeight 110 = none ∧
        GetLowestActiveTopicWeightAtBlock k1 110 = .ok (⟨0, 0⟩, true)) ∧
    (∃ k1, InactivateTopic (scenarioCtx 100) stepA 1 = .ok ((), k1) ∧
        GetActiveTopicIdsAtBlock k1 110 = .ok [] ∧
        GetLowestActiveTopicWeightAtBlock k1 110 = .ok (⟨5, 1⟩, false) ∧
        ∃ k2, ResetLowestActiveTopicWeightAtBlock (scenarioCtx 100) k1 110 = .ok ((), k2) ∧
          GetLowestActiveTopicWeightAtBlock k2 110 = .ok (⟨0, 0⟩, true)) :=
  ⟨(reset_prunes_only_when_called (scenarioCtx 100) 110).1 Keeper.empty rfl,
    (reset_prunes_only_when_called (scenarioCtx 100) 110).2.2 stepA 1 ⟨5, 1⟩ rfl rfl rfl rfl⟩

/-- Claim C12: `GetNextPossibleChurningBlockByTopicId`.  With no churn-schedule entry for the
topic the result is `(0, false)`, `0` being the reserved block; with an entry `b` it is
`(b, true)` when `b` is not below the current block and `(b, false)` when it is; no error is
returned in any case, and the query, which only reads the schedule, returns no stores. -/
theorem next_churning_block_query (ctx : Context) (k : Keeper) (topicId : TopicId) :
    (k.topicToNextPossibleChurningBlock topicId = none →
      GetNextPossibleChurningBlockByTopicId ctx k topicId = .ok (RESERVED_BLOCK, false)) ∧
    (∀ b, k.topicToNextPossibleChurningBlock topicId = some b → ctx.blockHeight ≤ b →
      GetNextPossibleChurningBlockByTopicId ctx k topicId = .ok (b, true)) ∧
    (∀ b, k.topicToNextPossibleChurningBlock topicId = some b → b < ctx.blockHeight →
      GetNextPossibleChurningBlockByTopicId ctx k topicId = .ok (b, false)) ∧
    RESERVED_BLOCK = 0 := by
  refine ⟨?_, ?_, ?_, rfl⟩
  · intro h
    simp [GetNextPossibleChurningBlockByTopicId, h]
  · intro b h hb
    simp [GetNextPossibleChurningBlockByTopicId, h, hb]
  · intro b h hb
    simp [GetNextPossibleChurningBlockByTopicId, h, hb]

/-- Witness of claim C12: in the full block 100 of the scenarios, topic `C` has no entry, and
the entry 100 of topic `A` is pending at block 90 and not pending at block 101. -/
theorem next_churning_block_query_witness :
    GetNextPossibleChurningBlockByTopicId (scenarioCtx 90) fullStep 3 = .ok (RESERVED_BLOCK, false) ∧
    GetNextPossibleChurningBlockByTopicId (scenarioCtx 90) fullStep 1 = .ok (100, true) ∧
    GetNextPossibleChurningBlockByTopicId (scenarioCtx 101) fullStep 1 = .ok (100, false) :=
  ⟨(next_churning_block_query (scenarioCtx 90) fullStep 3).1 rfl,
    (next_churning_block_query (scenarioCtx 90) fullStep 1).2.1 100 rfl (by decide),
    (next_churning_block_query (scenarioCtx 101) fullStep 1).2.2.1 100 rfl (by decide)⟩

/-- Claim C13: prune idempotence.  `PruneTopicActivationDataAtBlock(s)` returns no error,
leaves neither a list entry nor a lowest-weight entry at `s`, and changes nothing else: the
entries of the other blocks, the churn schedule and the active registry are as before.  A
second application leaves the stores unchanged, and so does an application to a block that has
neither entry. -/
theorem prune_idempotent (k : Keeper) (s : BlockHeight) :
    ∃ k1, PruneTopicActivationDataAtBlock k s = .ok ((), k1) ∧
      k1.blockToActiveTopics s = none ∧ k1.blockToLowestActiveTopicWeight s = none ∧
      (∀ b, b ≠ s → k1.blockToActiveTopics b = k.blockToActiveTopics b ∧
        k1.blockToLowestActiveTopicWeight b = k.blockToLowestActiveTopicWeight b) ∧
      k1.topicToNextPossibleChurningBlock = k.topicToNextPossibleChurningBlock ∧
      k1.activeTopics = k.activeTopics ∧
      PruneTopicActivationDataAtBlock k1 s = .ok ((), k1) ∧
      (k.blockToActiveTopics s = none → k.blockToLowestActiveTopicWeight s = none → k1 = k) := by
  refine ⟨_, rfl, ?_, ?_, ?_, rfl, rfl, ?_, ?_⟩
  · simp
  · simp
  · intro b hb
    exact ⟨mapRemove_other _ _ _ hb, mapRemove_other _ _ _ hb⟩
  · unfold PruneTopicActivationDataAtBlock
    simp only
    rw [mapRemove_absent (mapRemove k.blockToActiveTopics s) s (mapRemove_same _ _),
      mapRemove_absent (mapRemove k.blockToLowestActiveTopicWeight s) s (mapRemove_same _ _)]
  · intro h1 h2
    simp only
    rw [mapRemove_absent _ _ h1, mapRemove_absent _ _ h2]

/-- Witness of claim C13: pruning the never-populated block 7 of the full-block state returns
that state. -/
theorem prune_idempotent_witness :
    PruneTopicActivationDataAtBlock fullStep 7 = .ok ((), fullStep) := by
  obtain ⟨k1, h1, _, _, _, _, _, _, h8⟩ := prune_idempotent fullStep 7
  rw [h1, h8 rfl rfl]

/-- Claim C14: the guards of `ActivateTopic`.  When the topic ID is not registered, or the
topic has a churn-schedule entry at a block not below the current one, `ActivateTopic` returns
no error and the stores after the call are the stores before it. -/
theorem activate_guards (ctx : Context) (k : Keeper) (topicId : TopicId)
    (h : ctx.topics topicId = none ∨
      ∃ b, k.topicToNextPossibleChurningBlock topicId = some b ∧ ctx.blockHeight ≤ b) :
    ActivateTopic ctx k topicId = .ok ((), k) := by
  rcases h with h | ⟨b, h, hb⟩
  · simp [ActivateTopic, h]
  · unfold ActivateTopic
    cases ctx.topics topicId <;> simp [GetNextPossibleChurningBlockByTopicId, h, hb]

/-- Witness of claim C14: topic `A`, pending at block 100, is activated again at block 90. -/
theorem activate_guards_witness :
    ActivateTopic (scenarioCtx 90) fullStep 1 = .ok ((), fullStep) :=
  activate_guards (scenarioCtx 90) fullStep 1 (Or.inr ⟨100, rfl, by decide⟩)

/-- Claim C15: the guards of `InactivateTopic`.  When the topic ID is not registered, or the
topic has no churn-schedule entry, or its entry is at a block below the current one,
`InactivateTopic` returns no error and the stores after the call are the stores before it. -/
theorem inactivate_guards (ctx : Context) (k : Keeper) (topicId : TopicId)
    (h : ctx.topics topicId = none ∨ k.topicToNextPossibleChurningBlock topicId = none ∨
      ∃ b, k.topicToNextPossibleChurningBlock topicId = some b ∧ b < ctx.blockHeight) :
    InactivateTopic ctx k topicId = .ok ((), k) := by
  unfold InactivateTopic
  rcases h with h | h | ⟨b, h, hb⟩
  · rw [inactivate_unregistered ctx k topicId h]
  · rw [inactivate_unscheduled ctx k topicId h]
  · rcases inactivate_past ctx k topicId b h hb with h1 | h1 <;> rw [h1]

/-- Witness of claim C15: topic `A`, scheduled at block 100, is inactivated at block 101. -/
theorem inactivate_guards_witness :
    InactivateTopic (scenarioCtx 101) fullStep 1 = .ok ((), fullStep) :=
  inactivate_guards (scenarioCtx 101) fullStep 1 (Or.inr (Or.inr ⟨100, rfl, by decide⟩))

/-- Claim C16, which the code breaks: inactivating a topic that is missing from its scheduled
list empties that list.  At block 100, topic 1 is activated for block 110, block 110 is pruned,
and topic 2 is activated for block 110: topic 1 is registered and pending at block 110, the
list of block 110 is `[2]`, and topic 1 is not in it.  `InactivateTopic(1)` then stores the
empty list at block 110, dropping topic 2, which keeps its churn-schedule entry for block 110
and its registry entry. -/
theorem inactivate_missing_member_empties_list :
    (tieCtx.topics 1).isSome = true ∧
    GetNextPossibleChurningBlockByTopicId tieCtx
        (runCalls Keeper.empty [(tieCtx, .activate 1), (tieCtx, .prune 110), (tieCtx, .activate 2)])
        1 = .ok (110, true) ∧
    GetActiveTopicIdsAtBlock
        (runCalls Keeper.empty [(tieCtx, .activate 1), (tieCtx, .prune 110), (tieCtx, .activate 2)])
        110 = .ok [2] ∧
    (∃ k1, InactivateTopic tieCtx
        (runCalls Keeper.empty [(tieCtx, .activate 1), (tieCtx, .prune 110), (tieCtx, .activate 2)])
        1 = .ok ((), k1) ∧
      k1.blockToActiveTopics 110 = some [] ∧
      k1.topicToNextPossibleChurningBlock 2 = some 110 ∧ k1.activeTopics 2 = true) :=
  ⟨rfl, rfl, rfl, _, rfl, rfl, rfl, rfl⟩

/-- Claim C17: no duplicates within a block.  In every state reached from empty stores by any
sequence of `ActivateTopic`, `InactivateTopic`, `UpdateActiveTopic`,
`PruneTopicActivationDataAtBlock` and `ResetLowestActiveTopicWeightAtBlock` calls, each in a
context of its own, the list `GetActiveTopicIdsAtBlock` returns for any block holds no topic ID
twice. -/
theorem no_duplicates_reachable (calls : List (Context × Call)) (s : BlockHeight) :
    ∃ l, GetActiveTopicIdsAtBlock (runCalls Keeper.empty calls) s = .ok l ∧ l.Nodup := by
  have := runCalls_induction NoDuplicates (fun _ => True)
    (fun k c _ hk => applyCall_noDuplicates k c hk) calls Keeper.empty
    (fun _ _ => trivial) (by intro b; simp [Keeper.empty])
  exact ⟨_, GetActiveTopicIdsAtBlock_eq _ s, this s⟩

/-- Claim C18: a full-block admission keeps the length.  The list of block `s` has exactly
`MaxActiveTopicsPerBlock` entries and no duplicates, the cached lowest pair of `s` names a
member of it, and the candidate, not in the list, has a weight not below the cached lowest
weight.  Then the admission succeeds and stores at `s` the old list without the cached lowest
topic, followed by the candidate: a list of the same length that contains the candidate and
not the cached lowest topic.  For a registered candidate with `currentBlock + epochLength = s`
(the `int64` sum the code forms) this is the list `UpdateActiveTopic` leaves at `s`, and also the one `ActivateTopic` leaves
when the candidate has no pending churn. -/
theorem full_admission_keeps_length (ctx : Context) (k : Keeper) (t : TopicId)
    (s : BlockHeight) (l : List TopicId) (lowest : TopicIdWeightPair) (w : Dec)
    (hl : k.blockToActiveTopics s = some l)
    (hlen : l.length = ctx.params.MaxActiveTopicsPerBlock)
    (hnd : l.Nodup)
    (hcache : k.blockToLowestActiveTopicWeight s = some lowest)
    (hlow : lowest.TopicId ∈ l)
    (ht : t ∉ l)
    (hw : ctx.topicWeight t = some w)
    (hge : lowest.Weight ≤ w) :
    (∃ k1 l1, addTopicToActiveSetRespectingLimitsWithoutMinWeightReset ctx k t s = .ok (true, k1) ∧
      k1.blockToActiveTopics s = some l1 ∧ l1 = l.erase lowest.TopicId ++ [t] ∧
      l1.length = l.length ∧ t ∈ l1 ∧ lowest.TopicId ∉ l1) ∧
    (∀ topic, ctx.topics t = some topic → int64 (ctx.blockHeight + topic.EpochLength) = s →
      (∃ k2, UpdateActiveTopic ctx k t = .ok ((), k2) ∧
        k2.blockToActiveTopics s = some (l.erase lowest.TopicId ++ [t])) ∧
      (∀ b, GetNextPossibleChurningBlockByTopicId ctx k t = .ok (b, false) →
        ∃ k3, ActivateTopic ctx k t = .ok ((), k3) ∧
          k3.blockToActiveTopics s = some (l.erase lowest.TopicId ++ [t]))) := by
  have hl2 : (k.blockToActiveTopics s).getD [] = l := by rw [hl]; rfl
  have hc2 : (k.blockToLowestActiveTopicWeight s).getD ⟨0, 0⟩ = lowest := by rw [hcache]; rfl
  have hcap : int32 ctx.params.MaxActiveTopicsPerBlock ≤
      int32 ((k.blockToActiveTopics s).getD []).length := by
    rw [hl2, hlen]
  obtain ⟨v, k0, hin⟩ : ∃ v k0,
      inactivateTopicWithoutMinWeightReset ctx k lowest.TopicId = .ok (v, k0) := by
    rcases inactivate_cases ctx k lowest.TopicId with ⟨v, hin, _⟩ | ⟨v, hin, _⟩
    · exact ⟨v, _, hin⟩
    · exact ⟨v, _, hin⟩
  have hadd := add_full_evict ctx k k0 t s v w (by rw [hl2]; exact ht) hcap hw
    (by rw [hc2]; exact hge) (by rw [hc2]; exact hin)
  rw [hl2, hc2] at hadd
  refine ⟨⟨_, l.erase lowest.TopicId ++ [t], hadd, by simp, rfl, ?_, by simp, ?_⟩, ?_⟩
  · rw [List.length_append, List.length_erase_of_mem hlow, List.length_singleton]
    have := List.length_pos_of_mem hlow
    omega
  · intro hmem
    rcases List.mem_append.mp hmem with h1 | h1
    · exact ((List.Nodup.mem_erase_iff hnd).mp h1).1 rfl
    · rw [List.mem_singleton] at h1
      exact ht (h1 ▸ hlow)
  · intro topic hreg hs
    rw [← hs] at hadd
    refine ⟨⟨_, update_admitted ctx k _ t topic hreg hadd, ?_⟩, ?_⟩
    · rw [hs]; simp
    · intro b hnp
      refine ⟨_, activate_admitted ctx k _ t topic b hreg hnp hadd, ?_⟩
      rw [hs]; simp

/-- Witness of claim C18: `C` of weight 4 admitted to the full block 100 holding `[A, B]` with
cache `(B, 3)`. -/
theorem full_admission_keeps_length_witness :
    ∃ k1 l1, addTopicToActiveSetRespectingLimitsWithoutMinWeightReset (scenarioCtx 90) fullStep
        3 100 = .ok (true, k1) ∧
      k1.blockToActiveTopics 100 = some l1 ∧
      l1 = [1, 2].erase (⟨3, 2⟩ : TopicIdWeightPair).TopicId ++ [3] ∧
      l1.length = [1, 2].length ∧ 3 ∈ l1 ∧ (⟨3, 2⟩ : TopicIdWeightPair).TopicId ∉ l1 :=
  (full_admission_keeps_length (scenarioCtx 90) fullStep 3 100 [1, 2] ⟨3, 2⟩ 4
    rfl rfl (by decide) rfl (by decide) (by decide) rfl (by decide)).1

/-- Claim C19: recompute with no usable weight.  When the list of block `s` is not empty and
the weight lookup fails for every member, `ResetLowestActiveTopicWeightAtBlock(s)` returns no
error and changes nothing but the cached pair of `s`, which becomes `(topic 0, weight 0)`; when
topic 0 is not in the list, the topic of the pair cached for `s` is therefore not a member of
the list of `s`. -/
theorem reset_without_weights (ctx : Context) (k : Keeper) (s : BlockHeight)
    (l : List TopicId)
    (hl : GetActiveTopicIdsAtBlock k s = .ok l)
    (hne : l ≠ [])
    (hfail : ∀ u ∈ l, ctx.topicWeight u = none) :
    ∃ k1, ResetLowestActiveTopicWeightAtBlock ctx k s = .ok ((), k1) ∧
      k1 = { k with
        blockToLowestActiveTopicWeight :=
          mapSet k.blockToLowestActiveTopicWeight s ⟨0, 0⟩ } ∧
      GetLowestActiveTopicWeightAtBlock k1 s = .ok (⟨0, 0⟩, false) ∧
      GetActiveTopicIdsAtBlock k1 s = .ok l ∧
      (0 ∉ l → ∀ p missing, GetLowestActiveTopicWeightAtBlock k1 s = .ok (p, missing) →
        p.TopicId ∉ l) := by
  have hl2 := getD_of_get k s l hl
  have hscan : l.foldl (lowestScanStep ctx) ⟨true, 0, 0⟩ = ⟨true, 0, 0⟩ := by
    rcases lowestScan_initial ctx l 0 0 with ⟨h1, _⟩ | ⟨p, _, pre, post, h2, h3, _⟩
    · exact h1
    · have := hfail p.TopicId (by rw [h2]; simp)
      rw [this] at h3
      cases h3
  refine ⟨_, ?_, rfl, ?_, ?_, ?_⟩
  · rw [reset_nonempty ctx k s (by rw [hl2]; exact hne), hl2, hscan]
  · simp [GetLowestActiveTopicWeightAtBlock]
  · exact hl
  · intro h0 p missing hp
    simp [GetLowestActiveTopicWeightAtBlock] at hp
    rw [← hp.1]
    exact h0

/-- Witness of claim C19: block 110 holds topic 1 alone and the weight lookup fails for it; the
recompute caches `(0, 0)` although topic 0 is not in the list. -/
theorem reset_without_weights_witness :
    ∃ k1, ResetLowestActiveTopicWeightAtBlock unweighedCtx stepA 110 = .ok ((), k1) ∧
      GetLowestActiveTopicWeightAtBlock k1 110 = .ok (⟨0, 0⟩, false) ∧
      GetActiveTopicIdsAtBlock k1 110 = .ok [1] ∧
      (⟨0, 0⟩ : TopicIdWeightPair).TopicId ∉ [1] := by
  obtain ⟨k1, h1, _, h3, h4, h5⟩ := reset_without_weights unweighedCtx stepA 110 [1] rfl
    (by decide) (by intro u hu; simp at hu; subst hu; rfl)
  exact ⟨k1, h1, h3, h4, h5 (by decide) _ _ h3⟩

end Emissions
